import Mathlib

/-!
# Verification of the women-participation-energy ETL pipeline

Shallow embedding of `src/pipeline.py`, a three-stage ETL script:

* Extractor: HTTP GET; any status other than 200 raises before anything else runs.
* Transformer: `pd.read_csv(sep=";", on_bad_lines="skip")`, column-label
  canonicalization, `df.rename(columns=COLUMN_MAPPING)`,
  `pd.to_datetime(..., errors="coerce")` on `start_time`/`end_time`.
* Loader: `CREATE SCHEMA IF NOT EXISTS`, `DROP TABLE IF EXISTS`, `CREATE TABLE`,
  one `INSERT` per row, then a single `conn.commit()`.

Python/pandas library semantics are modelled explicitly where the script relies
on them; each such model is documented at its definition.
-/

namespace Pipeline

/-! ## Python string primitives used by the column-name cleaning chain -/

/-- The whitespace characters stripped by Python `str.strip()` (ASCII subset:
space, tab, newline, carriage return, vertical tab, form feed).  Python also
strips non-ASCII Unicode whitespace; the model restricts to ASCII. -/
def pyIsSpace (c : Char) : Bool :=
  c = ' ' || c = '\t' || c = '\n' || c = '\r' || c = Char.ofNat 11 || c = Char.ofNat 12

/-- `str.strip()` on a character list: drop whitespace from both ends. -/
def pyStripL (l : List Char) : List Char :=
  ((l.dropWhile pyIsSpace).reverse.dropWhile pyIsSpace).reverse

/-- `str.lower()` restricted to ASCII letters (the model of Python lowercasing
used by `.str.lower()`). -/
def lowerChar (c : Char) : Char :=
  if 65 ≤ c.toNat ∧ c.toNat ≤ 90 then Char.ofNat (c.toNat + 32) else c

/-- `str.replace(a, b)` with single-character `a`, `b`. -/
def replCharL (a b : Char) (l : List Char) : List Char :=
  l.map (fun c => if c = a then b else c)

/-- `str.replace("&", "and")`. -/
def replAmpL : List Char → List Char
  | [] => []
  | c :: cs => if c = '&' then 'a' :: 'n' :: 'd' :: replAmpL cs else c :: replAmpL cs

/-- `str.replace(a, "")`: remove every occurrence of the character `a`. -/
def removeCharL (a : Char) (l : List Char) : List Char :=
  l.filter (fun c => c ≠ a)

/-- The column-name cleaning chain of section 3 of the script, in source order:
`.str.strip().str.lower().str.replace('"','').str.replace(" ","_")
.str.replace("&","and").str.replace("-","_").str.replace("?","",regex=False)
.str.replace(".","",regex=False).str.replace("!","",regex=False)`. -/
def canonL (l : List Char) : List Char :=
  removeCharL '!' <| removeCharL '.' <| removeCharL '?' <|
    replCharL '-' '_' <| replAmpL <| replCharL ' ' '_' <|
      removeCharL '\"' <| (pyStripL l).map lowerChar

/-- Canonicalization of a raw column label (the `df.columns` cleaning chain). -/
def canonicalize (s : String) : String :=
  ⟨canonL s.data⟩

/-! ## Timestamps and cell values -/

/-- A parsed calendar date-time (what `pd.to_datetime` produces from a text
cell). -/
structure Timestamp where
  year : Nat
  month : Nat
  day : Nat
  hour : Nat
  minute : Nat
  second : Nat
deriving DecidableEq, Repr

/-- A datetime value: either parsed from text, or (when `pd.to_datetime` is
applied to an integer-typed column) an epoch-nanosecond interpretation of the
integer. -/
inductive TsVal where
  | civil (t : Timestamp)
  | epochNs (n : Int)
deriving DecidableEq, Repr

/-- A cell value as it flows through the DataFrame and into the `INSERT`
parameters:
* `null` models Python `None` / pandas `NaT`,
* `nan` models a pandas `NaN` cell (missing field or empty CSV field),
* `int` models a cell of a column that pandas dtype inference read as integer,
* `text` models an object-dtype (string) cell,
* `timestamp` models a `datetime64` cell. -/
inductive Value where
  | null
  | nan
  | int (n : Int)
  | text (s : String)
  | timestamp (t : TsVal)
deriving DecidableEq, Repr

def isDigitCh (c : Char) : Bool := 48 ≤ c.toNat ∧ c.toNat ≤ 57

def digitVal (c : Char) : Nat := c.toNat - 48

/-- Numeric value of a digit string (most significant digit first). -/
def digitsVal (l : List Char) : Nat :=
  l.foldl (fun a c => 10 * a + digitVal c) 0

/-- Integer-literal recognizer used to model pandas dtype inference: an
optional leading minus sign followed by one or more decimal digits. -/
def isIntLit (s : String) : Bool :=
  match s.data with
  | '-' :: rest => !rest.isEmpty && rest.all isDigitCh
  | l => !l.isEmpty && l.all isDigitCh

/-- Value of an integer literal (unspecified input yields 0; only applied to
strings accepted by `isIntLit`). -/
def strToInt (s : String) : Int :=
  match s.data with
  | '-' :: rest => -(digitsVal rest : Int)
  | l => (digitsVal l : Int)

def isLeap (y : Nat) : Bool :=
  (y % 4 = 0 && y % 100 ≠ 0) || y % 400 = 0

def daysInMonth (y m : Nat) : Nat :=
  if m = 2 then (if isLeap y then 29 else 28)
  else if m = 4 ∨ m = 6 ∨ m = 9 ∨ m = 11 then 30
  else 31

/-- The optional `HH:MM[:SS]` tail of an ISO date-time, after a `T` or space
separator; an empty tail means midnight. -/
def parseTimeTail (y m d : Nat) : List Char → Option Timestamp
  | [] => some ⟨y, m, d, 0, 0, 0⟩
  | sep :: h1 :: h2 :: ':' :: n1 :: n2 :: rest2 =>
    if (sep = 'T' || sep = ' ') && isDigitCh h1 && isDigitCh h2 &&
       isDigitCh n1 && isDigitCh n2 then
      let hh := digitsVal [h1, h2]
      let nn := digitsVal [n1, n2]
      if hh < 24 ∧ nn < 60 then
        match rest2 with
        | [] => some ⟨y, m, d, hh, nn, 0⟩
        | ':' :: s1 :: s2 :: [] =>
          if isDigitCh s1 && isDigitCh s2 && digitsVal [s1, s2] < 60 then
            some ⟨y, m, d, hh, nn, digitsVal [s1, s2]⟩
          else none
        | _ => none
      else none
    else none
  | _ => none

/-- Modelled from `pd.to_datetime`'s permissive parser, restricted to ISO 8601
inputs `YYYY-MM-DD`, optionally followed by `T` or a space and `HH:MM` or
`HH:MM:SS`, with calendar range validation (pandas rejects e.g. month 13 or
day 30 of February even with `errors="coerce"`). -/
def parseTimestampChars : List Char → Option Timestamp
  | y1 :: y2 :: y3 :: y4 :: '-' :: m1 :: m2 :: '-' :: d1 :: d2 :: rest =>
    if isDigitCh y1 && isDigitCh y2 && isDigitCh y3 && isDigitCh y4 &&
       isDigitCh m1 && isDigitCh m2 && isDigitCh d1 && isDigitCh d2 then
      let y := digitsVal [y1, y2, y3, y4]
      let m := digitsVal [m1, m2]
      let d := digitsVal [d1, d2]
      if 1 ≤ m ∧ m ≤ 12 ∧ 1 ≤ d ∧ d ≤ daysInMonth y m then
        parseTimeTail y m d rest
      else none
    else none
  | _ => none

def parseTimestamp (s : String) : Option Timestamp :=
  parseTimestampChars s.data

/-- One cell of `pd.to_datetime(col, errors="coerce")`: text cells are parsed
(unparseable text coerces to `NaT`, modelled as `null`); `NaN`/`None` cells
coerce to `NaT`; integer cells are interpreted as epoch nanoseconds;
datetime cells pass through. -/
def toDatetimeCell : Value → Value
  | .text s =>
    match parseTimestamp s with
    | some t => .timestamp (.civil t)
    | none => .null
  | .int n => .timestamp (.epochNs n)
  | .timestamp t => .timestamp t
  | .nan => .null
  | .null => .null

/-! ## CSV parsing (`pd.read_csv(io.StringIO(text), sep=";", on_bad_lines="skip")`)

Modelled semantics of the pandas call as the script uses it:
* the text is split into lines; blank (empty) lines are skipped
  (`skip_blank_lines=True` default);
* the first remaining line is the header; its `;`-separated fields are the raw
  column labels;
* each following line is split on `;`; a line with more fields than the header
  is a "bad line" and is silently skipped (`on_bad_lines="skip"`); a line with
  fewer fields than the header is kept and padded with `NaN` cells;
* an empty field parses as `NaN`; any other field is kept verbatim (quoting is
  not modelled: fields are the verbatim text between separators);
* a column whose cells are all present and all integer literals is read as an
  integer column (the model of pandas dtype inference, restricted to integer
  columns; pandas additionally infers floats, which the model keeps as text);
* no remaining line at all raises `EmptyDataError` (modelled as `none`). -/

/-- Split a character list at every occurrence of `sep` (like
`str.split(sep)`: splitting the empty string yields one empty field). -/
def splitOnCharL (sep : Char) : List Char → List (List Char)
  | [] => [[]]
  | c :: cs =>
    match splitOnCharL sep cs with
    | [] => [[]]
    | h :: t => if c = sep then [] :: h :: t else (c :: h) :: t

/-- The (non-blank) lines of the response text. -/
def linesOf (text : String) : List (List Char) :=
  (splitOnCharL '\n' text.data).filter (fun l => !l.isEmpty)

/-- The `;`-separated fields of one line. -/
def fieldsOf (l : List Char) : List String :=
  (splitOnCharL ';' l).map (fun cs => ⟨cs⟩)

/-- A raw cell: `none` is a missing/empty field (pandas `NaN`). -/
def parseField (s : String) : Option String :=
  if s = "" then none else some s

/-- Pad a short row with missing cells up to the header arity. -/
def padTo (n : Nat) (l : List (Option String)) : List (Option String) :=
  l ++ List.replicate (n - l.length) none

/-- The parsed table before dtype inference: raw header labels and rows of raw
cells, every row padded to the header arity. -/
structure RawTable where
  hdr : List String
  rws : List (List (Option String))
deriving DecidableEq, Repr

def rawParse (text : String) : Option RawTable :=
  match linesOf text with
  | [] => none
  | h :: rest =>
    let hdr := fieldsOf h
    let keep := rest.filter (fun l => (fieldsOf l).length ≤ hdr.length)
    some ⟨hdr, keep.map (fun l => padTo hdr.length ((fieldsOf l).map parseField))⟩

/-- Pandas dtype inference (integer-column fragment): column `i` is read as
integer iff every row has a present cell there and every such cell is an
integer literal. -/
def colIsInt (t : RawTable) (i : Nat) : Bool :=
  t.rws.all fun r =>
    match r.getD i none with
    | some s => isIntLit s
    | none => false

def colFlags (t : RawTable) : List Bool :=
  (List.range t.hdr.length).map (colIsInt t)

/-- One cell after dtype inference. -/
def inferCell (allInt : Bool) (c : Option String) : Value :=
  match c with
  | none => .nan
  | some s => if allInt then .int (strToInt s) else .text s

def inferRow (bs : List Bool) (r : List (Option String)) : List Value :=
  List.zipWith inferCell bs r

/-- A DataFrame: ordered column labels and rows of cells (each row has one
cell per column). -/
structure DF where
  cols : List String
  rows : List (List Value)
deriving DecidableEq, Repr

/-- The DataFrame produced by `pd.read_csv` from a raw table. -/
def toDF (t : RawTable) : DF :=
  ⟨t.hdr, t.rws.map (inferRow (colFlags t))⟩

/-! ## Column normalization, renaming, timestamp coercion -/

/-- `df.columns = df.columns.str.strip()...` (section 3 of the script). -/
def canonHeaders (df : DF) : DF :=
  ⟨df.cols.map canonicalize, df.rows⟩

/-- `COLUMN_MAPPING` from section 4 of the script, in source order. -/
def COLUMN_MAPPING : List (String × String) :=
  [("start", "start_time"),
   ("end", "end_time"),
   ("nationality", "nationality"),
   ("region", "region"),
   ("school_name", "school_name"),
   ("level_of_study", "level_of_study"),
   ("gender", "gender"),
   ("age", "age"),
   ("gps_coordinates", "gps_coordinates"),
   ("name_of_organisation", "name_of_organization"),
   ("your_current_position_in_the_organization", "current_position"),
   ("years_of_work_experience", "years_of_experience"),
   ("which_specific_energy_domain_does_your_organization_concentrate_on", "energy_domain"),
   ("i_give_consent_for_my_information_to_be_collected_and_used_for_research_purposes", "consent")]

def lookupMapping (k : String) : Option String :=
  (COLUMN_MAPPING.find? (fun e => e.1 = k)).map (·.2)

/-- The new name of one column under `df.rename(columns=COLUMN_MAPPING)`:
mapped columns get their mapped name, others keep theirs. -/
def renameCol (k : String) : String :=
  match lookupMapping k with
  | some d => d
  | none => k

/-- `df = df.rename(columns=COLUMN_MAPPING)`. -/
def renameColumns (df : DF) : DF :=
  ⟨df.cols.map renameCol, df.rows⟩

/-- Index of the first column with the given label, if any. -/
def colIdx : List String → String → Option Nat
  | [], _ => none
  | c :: cs, n => if c = n then some 0 else (colIdx cs n).map (· + 1)

/-- `df[name] = pd.to_datetime(df.get(name), errors="coerce")`: if the column
exists, its cells are coerced in place; if `df.get(name)` is `None` (column
absent), `pd.to_datetime(None)` is `NaT` and the assignment appends a new
all-`NaT` column (`toDatetimeCell .null = .null`). -/
def applyCol (df : DF) (name : String) (f : Value → Value) : DF :=
  match colIdx df.cols name with
  | some i => ⟨df.cols, df.rows.map (fun r => r.set i (f (r.getD i .null)))⟩
  | none => ⟨df.cols ++ [name], df.rows.map (fun r => r ++ [f .null])⟩

/-- The two timestamp conversions of section 4 of the script, in order. -/
def coerceTimestamps (df : DF) : DF :=
  applyCol (applyCol df "start_time" toDatetimeCell) "end_time" toDatetimeCell

/-- The whole Transformer: parse, infer dtypes, canonicalize labels, rename,
coerce timestamps.  `none` is a fatal table-level parse failure. -/
def transform (text : String) : Option DF :=
  (rawParse text).map fun t =>
    coerceTimestamps (renameColumns (canonHeaders (toDF t)))

/-! ## Row projection (the `INSERT` parameter tuple) -/

/-- The 14 destination columns, in the `insert_query` column order of
section 7 of the script. -/
def DEST_COLUMNS : List String :=
  ["start_time", "end_time", "nationality", "region", "school_name",
   "level_of_study", "gender", "age", "gps_coordinates",
   "name_of_organization", "current_position",
   "years_of_experience", "energy_domain", "consent"]

/-- `row.get(name)` on a pandas Series: the cell of the first column so
labelled, or `None` when the label is absent. -/
def rowGet (cols : List String) (r : List Value) (name : String) : Value :=
  match colIdx cols name with
  | some i => r.getD i .null
  | none => .null

/-- The NormalizedRecord for one row: the 14-tuple of `row.get(...)` values
passed to `cur.execute(insert_query, ...)`. -/
def normalizedRecord (cols : List String) (r : List Value) : List Value :=
  DEST_COLUMNS.map (rowGet cols r)

/-- The sequence of NormalizedRecords of a transformed DataFrame
(`for _, row in df.iterrows()`, in order). -/
def normalizedRecords (df : DF) : List (List Value) :=
  df.rows.map (normalizedRecord df.cols)

/-- Field of a NormalizedRecord by destination column name. -/
def fieldVal (rec : List Value) (d : String) : Value :=
  match colIdx DEST_COLUMNS d with
  | some i => rec.getD i .null
  | none => .null

/-! ## Database and Loader

The script opens one psycopg2 connection (autocommit off), issues all DDL and
all inserts on it, and calls `conn.commit()` exactly once at the very end.
The model keeps the committed database state separate from the in-transaction
(pending) state: statements act on the pending state, and only `commit`
publishes it.  On an error the script raises with the transaction uncommitted,
which PostgreSQL rolls back — the committed state is simply left untouched
(PostgreSQL DDL, including `DROP TABLE`/`CREATE TABLE`, is transactional). -/

def SCHEMA_NAME : String := "women_survey"

def TABLE_NAME : String := "women_participation_energy"

/-- A database: its schemas, and its tables keyed by (schema, table name),
each holding its committed rows (the identity column is auto-assigned by the
database and not modelled). -/
structure DBState where
  schemas : List String
  tables : List ((String × String) × List (List Value))
deriving DecidableEq, Repr

def lookupTable (db : DBState) (k : String × String) : Option (List (List Value)) :=
  (db.tables.find? (fun e => decide (e.1 = k))).map (·.2)

/-- `CREATE SCHEMA IF NOT EXISTS s`. -/
def createSchemaOp (db : DBState) (s : String) : DBState :=
  if s ∈ db.schemas then db else ⟨db.schemas ++ [s], db.tables⟩

/-- `DROP TABLE IF EXISTS k`. -/
def dropTableOp (db : DBState) (k : String × String) : DBState :=
  ⟨db.schemas, db.tables.filter (fun e => decide (e.1 ≠ k))⟩

/-- `CREATE TABLE k (...)`: fails if the table exists or the schema is
missing; otherwise the table is created empty. -/
def createTableOp (db : DBState) (k : String × String) : Except String DBState :=
  if k.1 ∈ db.schemas then
    match lookupTable db k with
    | some _ => .error "table already exists"
    | none => .ok ⟨db.schemas, db.tables ++ [(k, [])]⟩
  else .error "schema does not exist"

/-- `INSERT INTO k (...) VALUES (...)`: appends one row. -/
def insertOp (db : DBState) (k : String × String) (row : List Value) :
    Except String DBState :=
  match lookupTable db k with
  | none => .error "table does not exist"
  | some rows =>
    .ok ⟨db.schemas, db.tables.map (fun e => if e.1 = k then (k, rows ++ [row]) else e)⟩

/-- Observable steps of a run, for stating ordering properties. -/
inductive Event where
  | fetched (status : Nat)
  | connected
  | schemaCreated
  | tableDropped
  | tableCreated
  | rowInserted (i : Nat)
  | committed
  | closed
deriving DecidableEq, Repr

/-- Outcome of a run: the committed database state after the run, the events
that happened, and the fatal error if the run aborted. -/
structure RunResult where
  db : DBState
  events : List Event
  error : Option String
deriving DecidableEq, Repr

/-- The insert loop (`for _, row in df.iterrows(): cur.execute(insert_query,
...)`), acting on the pending state.  `failsAt i` is the environment's choice
of whether the database rejects the `i`-th insert (constraint violation,
connectivity loss, ...); the first failure raises and stops the loop. -/
def insertAll (db : DBState) (k : String × String) (recs : List (List Value))
    (failsAt : Nat → Bool) (i : Nat) : List Event × Except String DBState :=
  match recs with
  | [] => ([], .ok db)
  | r :: rest =>
    if failsAt i then ([], .error "insert failed")
    else
      match insertOp db k r with
      | .error e => ([], .error e)
      | .ok db' =>
        let (evs, res) := insertAll db' k rest failsAt (i + 1)
        (.rowInserted i :: evs, res)

/-- The Loader (sections 6–7 of the script): schema DDL, drop, create, the
insert loop, then the single `conn.commit()` and `conn.close()`.  Any failure
raises with nothing committed, so the committed state of the result is the
pre-run state. -/
def loadRecords (db : DBState) (recs : List (List Value)) (failsAt : Nat → Bool) :
    RunResult :=
  let key := (SCHEMA_NAME, TABLE_NAME)
  let p1 := createSchemaOp db SCHEMA_NAME
  let p2 := dropTableOp p1 key
  match createTableOp p2 key with
  | .error e => ⟨db, [.schemaCreated, .tableDropped], some e⟩
  | .ok p3 =>
    match insertAll p3 key recs failsAt 0 with
    | (evs, .error e) =>
      ⟨db, [.schemaCreated, .tableDropped, .tableCreated] ++ evs, some e⟩
    | (evs, .ok p4) =>
      ⟨p4, [.schemaCreated, .tableDropped, .tableCreated] ++ evs ++
            [.committed, .closed], none⟩

/-- The pending (in-transaction) state after the three DDL statements of a
Loader run: schema ensured, destination table dropped and recreated empty. -/
def preparedDB (db : DBState) : DBState :=
  ⟨(createSchemaOp db SCHEMA_NAME).schemas,
    ((createSchemaOp db SCHEMA_NAME).tables.filter
      (fun e => decide (e.1 ≠ (SCHEMA_NAME, TABLE_NAME)))) ++
      [((SCHEMA_NAME, TABLE_NAME), [])]⟩

/-- The HTTP response of the Extractor's single GET request. -/
structure HttpResponse where
  status : Nat
  body : String
deriving DecidableEq, Repr

/-- The whole script, in source order: fetch (raising on any status other
than 200 before anything else runs), parse and transform (raising on a
table-level parse failure, still before any database connection), then
connect and load. -/
def runPipeline (resp : HttpResponse) (db : DBState) (failsAt : Nat → Bool) :
    RunResult :=
  if resp.status ≠ 200 then
    ⟨db, [.fetched resp.status], some "failed to fetch data"⟩
  else
    match transform resp.body with
    | none => ⟨db, [.fetched 200], some "no data to parse"⟩
    | some df =>
      let r := loadRecords db (normalizedRecords df) failsAt
      ⟨r.db, .fetched 200 :: .connected :: r.events, r.error⟩

/-! ## Auxiliary notions used only in theorem statements -/

/-- Well-formedness of a DataFrame: every row has one cell per column. -/
def DFwf (df : DF) : Prop :=
  ∀ r ∈ df.rows, r.length = df.cols.length

/-- Two-digit zero-padded decimal rendering. -/
def pad2 (n : Nat) : List Char :=
  [Nat.digitChar (n / 10 % 10), Nat.digitChar (n % 10)]

/-- Four-digit zero-padded decimal rendering. -/
def pad4 (n : Nat) : List Char :=
  [Nat.digitChar (n / 1000 % 10), Nat.digitChar (n / 100 % 10),
   Nat.digitChar (n / 10 % 10), Nat.digitChar (n % 10)]

/-- An ISO 8601 `YYYY-MM-DDTHH:MM` date-time string. -/
def renderIso (y m d hh nn : Nat) : String :=
  ⟨pad4 y ++ '-' :: pad2 m ++ '-' :: pad2 d ++ 'T' :: pad2 hh ++ ':' :: pad2 nn⟩

/-- Replace the cell at row `j`, column `i` of a row list. -/
def updateCell (rows : List (List Value)) (j i : Nat) (v : Value) :
    List (List Value) :=
  rows.set j ((rows.getD j []).set i v)

/-- The coercion `applyCol` applies to one row, given where (if anywhere) the
target column sits. -/
def coerceRowAt (idx : Option Nat) (f : Value → Value) (r : List Value) :
    List Value :=
  match idx with
  | some i => r.set i (f (r.getD i .null))
  | none => r ++ [f .null]

/-- The column list after the `start_time` assignment. -/
def coerceCols1 (cols : List String) : List String :=
  match colIdx cols "start_time" with
  | some _ => cols
  | none => cols ++ ["start_time"]

/-- The column list after both timestamp assignments. -/
def coerceCols2 (cols : List String) : List String :=
  match colIdx (coerceCols1 cols) "end_time" with
  | some _ => coerceCols1 cols
  | none => coerceCols1 cols ++ ["end_time"]

/-- What the two timestamp assignments do to one row, as a function of the
column list alone. -/
def coerceRowFun (cols : List String) (r : List Value) : List Value :=
  coerceRowAt (colIdx (coerceCols1 cols) "end_time") toDatetimeCell
    (coerceRowAt (colIdx cols "start_time") toDatetimeCell r)

/-- The NormalizedRecord induced by a single raw parsed row: the per-row
composition of the Transformer stages (dtype inference with the table's
column flags, header canonicalization/renaming, the two timestamp coercions,
then the 14-column projection).  Used to state that the Transformer is an
order-preserving per-row map. -/
def rowPipeline (t : RawTable) (r : List (Option String)) : List Value :=
  let cols1 := (t.hdr.map canonicalize).map renameCol
  let i1 := colIdx cols1 "start_time"
  let cols2 := match i1 with
    | some _ => cols1
    | none => cols1 ++ ["start_time"]
  let i2 := colIdx cols2 "end_time"
  let cols3 := match i2 with
    | some _ => cols2
    | none => cols2 ++ ["end_time"]
  normalizedRecord cols3
    (coerceRowAt i2 toDatetimeCell
      (coerceRowAt i1 toDatetimeCell (inferRow (colFlags t) r)))

/-! ## Claim C9: extraction failure precedes all database effects -/

/-- C9: if the remote service returns any status other than 200, the run
aborts fatally with an extraction error before any database connection is
opened: the only event is the fetch itself (no connection, no DDL, no
inserts, no commit) and the database is untouched. -/
theorem extraction_failure_aborts_before_db (resp : HttpResponse) (db : DBState)
    (failsAt : Nat → Bool) (h : resp.status ≠ 200) :
    (runPipeline resp db failsAt).error.isSome = true ∧
    (runPipeline resp db failsAt).db = db ∧
    (runPipeline resp db failsAt).events = [.fetched resp.status] ∧
    Event.connected ∉ (runPipeline resp db failsAt).events := by
  simp [runPipeline, h]

/-- C9 witness: an HTTP 401 response aborts the run with no database effect. -/
theorem extraction_failure_aborts_before_db_witness :
    (runPipeline ⟨401, "body"⟩ ⟨[], []⟩ (fun _ => false)).error.isSome = true ∧
    (runPipeline ⟨401, "body"⟩ ⟨[], []⟩ (fun _ => false)).db = ⟨[], []⟩ ∧
    (runPipeline ⟨401, "body"⟩ ⟨[], []⟩ (fun _ => false)).events = [.fetched 401] ∧
    Event.connected ∉ (runPipeline ⟨401, "body"⟩ ⟨[], []⟩ (fun _ => false)).events :=
  extraction_failure_aborts_before_db ⟨401, "body"⟩ ⟨[], []⟩ (fun _ => false)
    (by decide)

/-! ## Claim C3 (counterexample): a row with fewer fields is NOT dropped

`on_bad_lines="skip"` only skips lines with more fields than the header; a
line with fewer fields is kept and padded with `NaN`. -/

/-- C3 counterexample: in `"Start;End;Gender\na;b;c\nx;y"` the data row
`"x;y"` has fewer fields than the header, yet the Transformer yields two
NormalizedRecords — one per data row — not one, so the output length does
not decrease. -/
theorem short_row_kept_not_dropped :
    (fieldsOf ("x;y").data).length < (fieldsOf ("Start;End;Gender").data).length ∧
    (transform "Start;End;Gender\na;b;c\nx;y").map
      (fun df => (normalizedRecords df).length) = some 2 ∧
    (transform "Start;End;Gender\na;b;c\nx;y").map
      (fun df => (normalizedRecords df).length) ≠ some 1 := by
  decide

/-! ## Claim C4 (counterexample): canonicalization is not idempotent

`strip` runs first, so a non-space whitespace character that is interior
before punctuation removal — e.g. the tab in `"a\t."` — becomes trailing
after the removals, and only the second application strips it. -/

/-- C4 counterexample: `canonicalize "a\t." = "a\t"` but applying
`canonicalize` again yields `"a"`. -/
theorem canonicalize_not_idempotent :
    canonicalize (canonicalize "a\t.") ≠ canonicalize "a\t." := by
  decide

/-! ## Claim C6 (counterexample): an unmapped canonical label can reach the
record when it coincides with a destination column name -/

/-- C6 counterexample: the canonical label `consent` (from raw header
`Consent`) has no entry in `COLUMN_MAPPING`, yet its value `"yes"` appears in
the NormalizedRecord under the destination field `consent`, because
`row.get("consent")` finds the un-renamed column. -/
theorem unmapped_label_reaches_record :
    lookupMapping (canonicalize "Consent") = none ∧
    (transform "Consent;Gender\nyes;F").map
      (fun df => (normalizedRecords df).map (fun rec => fieldVal rec "consent")) =
      some [Value.text "yes"] ∧
    Value.text "yes" ≠ Value.null := by
  decide

/-! ## Claim C7 (counterexample): projection is not verbatim text

pandas dtype inference turns an all-integer column into an integer column, so
the inserted value is the parsed integer, not the source text. -/

/-- C7 counterexample: with source cell `"007"` in column `Age` (a column
whose cells are all integer literals), the NormalizedRecord field `age` holds
the integer 7, not the verbatim text `"007"`; also, the absent column
`gender` yields `None` (a null marker), not the empty string. -/
theorem projection_not_verbatim :
    (transform "Start;Age\n2024-01-01T10:00;007").map
      (fun df => (normalizedRecords df).map (fun rec => fieldVal rec "age")) =
      some [Value.int 7] ∧
    Value.int 7 ≠ Value.text "007" ∧
    (transform "Start;Age\n2024-01-01T10:00;007").map
      (fun df => (normalizedRecords df).map (fun rec => fieldVal rec "gender")) =
      some [Value.null] ∧
    Value.null ≠ Value.text "" := by
  decide

/-! ## Character-level lemmas about the cleaning chain -/

theorem lowerChar_toNat_of_upper {c : Char} (h : 65 ≤ c.toNat ∧ c.toNat ≤ 90) :
    (lowerChar c).toNat = c.toNat + 32 := by
  have hv : (c.toNat + 32).isValidChar := by
    left
    omega
  rw [lowerChar, if_pos h, Char.ofNat, dif_pos hv]
  rfl

theorem lowerChar_fixed (c : Char) : lowerChar (lowerChar c) = lowerChar c := by
  by_cases h : 65 ≤ c.toNat ∧ c.toNat ≤ 90
  · have h1 : (lowerChar c).toNat = c.toNat + 32 := lowerChar_toNat_of_upper h
    have h2 : ¬(65 ≤ (lowerChar c).toNat ∧ (lowerChar c).toNat ≤ 90) := by omega
    conv_lhs => rw [lowerChar]
    rw [if_neg h2]
  · have h0 : lowerChar c = c := by rw [lowerChar, if_neg h]
    rw [h0, h0]

theorem pyIsSpace_toNat {d : Char} (hd : pyIsSpace d = true) :
    d.toNat = 32 ∨ d.toNat = 9 ∨ d.toNat = 10 ∨ d.toNat = 13 ∨
      d.toNat = 11 ∨ d.toNat = 12 := by
  simp only [pyIsSpace, Bool.or_eq_true, decide_eq_true_eq] at hd
  rcases hd with ((((rfl | rfl) | rfl) | rfl) | rfl) | rfl <;> simp

theorem pyIsSpace_of_lowerChar {c : Char} (h : pyIsSpace (lowerChar c) = true) :
    lowerChar c = c := by
  by_cases hu : 65 ≤ c.toNat ∧ c.toNat ≤ 90
  · exfalso
    have h1 : (lowerChar c).toNat = c.toNat + 32 := lowerChar_toNat_of_upper hu
    have h2 := pyIsSpace_toNat h
    omega
  · rw [lowerChar, if_neg hu]

theorem mem_dropWhile {c : Char} {p : Char → Bool} {l : List Char}
    (h : c ∈ l.dropWhile p) : c ∈ l := by
  induction l with
  | nil => simp at h
  | cons a as ih =>
    rw [List.dropWhile_cons] at h
    by_cases hp : p a = true
    · simp only [hp, if_true] at h
      exact List.mem_cons_of_mem a (ih h)
    · simp only [hp, if_false] at h
      exact h

theorem mem_pyStripL {c : Char} {l : List Char} (h : c ∈ pyStripL l) : c ∈ l := by
  unfold pyStripL at h
  rw [List.mem_reverse] at h
  have h2 := mem_dropWhile h
  rw [List.mem_reverse] at h2
  exact mem_dropWhile h2

theorem mem_replCharL {a b c : Char} {l : List Char} (h : c ∈ replCharL a b l) :
    c = b ∨ (c ≠ a ∧ c ∈ l) := by
  rw [replCharL, List.mem_map] at h
  obtain ⟨d, hd, rfl⟩ := h
  by_cases hda : d = a
  · left
    rw [if_pos hda]
  · right
    rw [if_neg hda]
    exact ⟨hda, hd⟩

theorem mem_replAmpL {c : Char} {l : List Char} (h : c ∈ replAmpL l) :
    c = 'a' ∨ c = 'n' ∨ c = 'd' ∨ (c ≠ '&' ∧ c ∈ l) := by
  induction l with
  | nil => simp [replAmpL] at h
  | cons x xs ih =>
    rw [replAmpL] at h
    by_cases hx : x = '&'
    · rw [if_pos hx] at h
      simp only [List.mem_cons] at h
      rcases h with rfl | rfl | rfl | h
      · exact Or.inl rfl
      · exact Or.inr (Or.inl rfl)
      · exact Or.inr (Or.inr (Or.inl rfl))
      · rcases ih h with h' | h' | h' | ⟨h1, h2⟩
        · exact Or.inl h'
        · exact Or.inr (Or.inl h')
        · exact Or.inr (Or.inr (Or.inl h'))
        · exact Or.inr (Or.inr (Or.inr ⟨h1, List.mem_cons_of_mem x h2⟩))
    · rw [if_neg hx] at h
      rcases List.mem_cons.mp h with rfl | h
      · exact Or.inr (Or.inr (Or.inr ⟨hx, List.mem_cons_self c xs⟩))
      · rcases ih h with h' | h' | h' | ⟨h1, h2⟩
        · exact Or.inl h'
        · exact Or.inr (Or.inl h')
        · exact Or.inr (Or.inr (Or.inl h'))
        · exact Or.inr (Or.inr (Or.inr ⟨h1, List.mem_cons_of_mem x h2⟩))

theorem mem_removeCharL {a c : Char} {l : List Char} (h : c ∈ removeCharL a l) :
    c ≠ a ∧ c ∈ l := by
  rw [removeCharL, List.mem_filter] at h
  exact ⟨by simpa using h.2, h.1⟩

/-- Every character of a canonicalized label is one of the inserted characters
`_`, `a`, `n`, `d`, or the lowercasing of a character of the input. -/
theorem mem_canonL {c : Char} {l : List Char} (h : c ∈ canonL l) :
    c = '_' ∨ c = 'a' ∨ c = 'n' ∨ c = 'd' ∨ ∃ d ∈ l, c = lowerChar d := by
  rw [canonL] at h
  have h1 := (mem_removeCharL h).2
  have h2 := (mem_removeCharL h1).2
  have h3 := (mem_removeCharL h2).2
  rcases mem_replCharL h3 with rfl | ⟨_, h4⟩
  · exact Or.inl rfl
  rcases mem_replAmpL h4 with rfl | rfl | rfl | ⟨_, h5⟩
  · exact Or.inr (Or.inl rfl)
  · exact Or.inr (Or.inr (Or.inl rfl))
  · exact Or.inr (Or.inr (Or.inr (Or.inl rfl)))
  rcases mem_replCharL h5 with rfl | ⟨_, h6⟩
  · exact Or.inl rfl
  have h7 := (mem_removeCharL h6).2
  rw [List.mem_map] at h7
  obtain ⟨d, hd, rfl⟩ := h7
  exact Or.inr (Or.inr (Or.inr (Or.inr ⟨d, mem_pyStripL hd, rfl⟩)))

/-- Characters of a canonicalized label avoid every character the chain
removes or replaces, and are fixed points of lowercasing. -/
theorem canonL_chars {c : Char} {l : List Char} (h : c ∈ canonL l) :
    c ≠ '!' ∧ c ≠ '.' ∧ c ≠ '?' ∧ c ≠ '-' ∧ c ≠ '&' ∧ c ≠ ' ' ∧ c ≠ '\"' ∧
      lowerChar c = c := by
  rw [canonL] at h
  obtain ⟨hbang, h1⟩ := mem_removeCharL h
  obtain ⟨hdot, h2⟩ := mem_removeCharL h1
  obtain ⟨hq, h3⟩ := mem_removeCharL h2
  refine ⟨hbang, hdot, hq, ?_⟩
  rcases mem_replCharL h3 with rfl | ⟨hdash, h4⟩
  · exact ⟨by decide, by decide, by decide, by decide, by decide⟩
  refine ⟨hdash, ?_⟩
  rcases mem_replAmpL h4 with rfl | rfl | rfl | ⟨hamp, h5⟩
  · exact ⟨by decide, by decide, by decide, by decide⟩
  · exact ⟨by decide, by decide, by decide, by decide⟩
  · exact ⟨by decide, by decide, by decide, by decide⟩
  refine ⟨hamp, ?_⟩
  rcases mem_replCharL h5 with rfl | ⟨hsp, h6⟩
  · exact ⟨by decide, by decide, by decide⟩
  refine ⟨hsp, ?_⟩
  obtain ⟨hquot, h7⟩ := mem_removeCharL h6
  refine ⟨hquot, ?_⟩
  rw [List.mem_map] at h7
  obtain ⟨d, _, rfl⟩ := h7
  exact lowerChar_fixed d

theorem dropWhile_eq_self_of {p : Char → Bool} {l : List Char}
    (h : ∀ c ∈ l, p c = false) : l.dropWhile p = l := by
  cases l with
  | nil => rfl
  | cons a as =>
    rw [List.dropWhile_cons, h a (List.mem_cons_self a as)]
    simp

theorem pyStripL_eq_self {l : List Char} (h : ∀ c ∈ l, pyIsSpace c = false) :
    pyStripL l = l := by
  unfold pyStripL
  rw [dropWhile_eq_self_of h, dropWhile_eq_self_of fun c hc =>
    h c (List.mem_reverse.mp hc), List.reverse_reverse]

theorem removeCharL_eq_self {a : Char} {l : List Char} (h : ∀ c ∈ l, c ≠ a) :
    removeCharL a l = l := by
  rw [removeCharL, List.filter_eq_self]
  intro c hc
  simpa using h c hc

theorem replCharL_eq_self {a b : Char} {l : List Char} (h : ∀ c ∈ l, c ≠ a) :
    replCharL a b l = l := by
  rw [replCharL]
  conv_rhs => rw [← List.map_id l]
  exact List.map_congr_left fun c hc => if_neg (h c hc)

theorem replAmpL_eq_self {l : List Char} (h : ∀ c ∈ l, c ≠ '&') :
    replAmpL l = l := by
  induction l with
  | nil => rfl
  | cons x xs ih =>
    rw [replAmpL, if_neg (h x (List.mem_cons_self x xs)),
      ih fun c hc => h c (List.mem_cons_of_mem x hc)]

theorem map_lowerChar_eq_self {l : List Char} (h : ∀ c ∈ l, lowerChar c = c) :
    l.map lowerChar = l := by
  conv_rhs => rw [← List.map_id l]
  exact List.map_congr_left h

/-- Applying the cleaning chain to an already-cleaned label only strips
whitespace from its ends. -/
theorem canonL_canonL (l : List Char) :
    canonL (canonL l) = pyStripL (canonL l) := by
  have hz : ∀ c ∈ pyStripL (canonL l),
      c ≠ '!' ∧ c ≠ '.' ∧ c ≠ '?' ∧ c ≠ '-' ∧ c ≠ '&' ∧ c ≠ ' ' ∧ c ≠ '\"' ∧
        lowerChar c = c :=
    fun c hc => canonL_chars (mem_pyStripL hc)
  conv_lhs => rw [canonL]
  rw [map_lowerChar_eq_self fun c hc => (hz c hc).2.2.2.2.2.2.2,
    removeCharL_eq_self fun c hc => (hz c hc).2.2.2.2.2.2.1,
    replCharL_eq_self fun c hc => (hz c hc).2.2.2.2.2.1,
    replAmpL_eq_self fun c hc => (hz c hc).2.2.2.2.1,
    replCharL_eq_self fun c hc => (hz c hc).2.2.2.1,
    removeCharL_eq_self fun c hc => (hz c hc).2.2.1,
    removeCharL_eq_self fun c hc => (hz c hc).2.1,
    removeCharL_eq_self fun c hc => (hz c hc).1]

/-- C4 (amended): applying `canonicalize` twice equals stripping whitespace
from the ends of the canonical form; hence canonicalization is idempotent on
every raw label whose whitespace characters are all plain spaces (a non-space
whitespace character such as a tab can survive the first pass — protected by
trailing removable punctuation — and be stripped only by the second). -/
theorem canonicalize_twice (x : String) :
    canonicalize (canonicalize x) = ⟨pyStripL (canonicalize x).data⟩ ∧
    ((∀ c ∈ x.data, pyIsSpace c = true → c = ' ') →
      canonicalize (canonicalize x) = canonicalize x) := by
  have hdata : (canonicalize x).data = canonL x.data := rfl
  constructor
  · show (⟨canonL (canonicalize x).data⟩ : String) = ⟨pyStripL (canonicalize x).data⟩
    rw [hdata, canonL_canonL]
  · intro hsp
    show (⟨canonL (canonicalize x).data⟩ : String) = canonicalize x
    rw [hdata, canonL_canonL]
    have hns : ∀ c ∈ canonL x.data, pyIsSpace c = false := by
      intro c hc
      by_contra hb
      have hb' : pyIsSpace c = true := by
        revert hb
        cases pyIsSpace c <;> simp
      rcases mem_canonL hc with rfl | rfl | rfl | rfl | ⟨d, hd, rfl⟩
      · exact absurd hb' (by decide)
      · exact absurd hb' (by decide)
      · exact absurd hb' (by decide)
      · exact absurd hb' (by decide)
      · have hfix : lowerChar d = d := pyIsSpace_of_lowerChar hb'
        rw [hfix] at hb'
        have hd' : d = ' ' := hsp d hd hb'
        have := canonL_chars hc
        rw [hfix, hd'] at this
        exact this.2.2.2.2.2.1 rfl
    show (⟨pyStripL (canonL x.data)⟩ : String) = ⟨canonL x.data⟩
    rw [pyStripL_eq_self hns]

/-- C4 witness: canonicalization is idempotent on an ordinary label. -/
theorem canonicalize_twice_witness :
    canonicalize (canonicalize "A & B?") = canonicalize "A & B?" :=
  (canonicalize_twice "A & B?").2 (by decide)

/-! ## List access lemmas -/

theorem getD_map_lt {α β : Type} (g : α → β) (l : List α) (j : Nat) (x : β)
    (y : α) (h : j < l.length) : (l.map g).getD j x = g (l.getD j y) := by
  induction l generalizing j with
  | nil => simp at h
  | cons a as ih =>
    cases j with
    | zero => rfl
    | succ j' => exact ih j' (by simpa using h)

theorem getD_of_getElem? {α : Type} {l : List α} {i : Nat} {a : α} (x : α)
    (h : l[i]? = some a) : l.getD i x = a := by
  rw [List.getD_eq_getElem?_getD, h]
  rfl

theorem getD_set_self {α : Type} (r : List α) (i : Nat) (v x : α)
    (h : i < r.length) : (r.set i v).getD i x = v := by
  induction r generalizing i with
  | nil => simp at h
  | cons a as ih =>
    cases i with
    | zero => rfl
    | succ i' => exact ih i' (by simpa using h)

theorem getD_set_ne {α : Type} (r : List α) (i j : Nat) (v x : α)
    (h : i ≠ j) : (r.set i v).getD j x = r.getD j x := by
  induction r generalizing i j with
  | nil => simp [List.set]
  | cons a as ih =>
    cases i with
    | zero =>
      cases j with
      | zero => exact absurd rfl h
      | succ j' => rfl
    | succ i' =>
      cases j with
      | zero => rfl
      | succ j' => exact ih i' j' fun hc => h (by rw [hc])

theorem getD_append_left {α : Type} (r s : List α) (i : Nat) (x : α)
    (h : i < r.length) : (r ++ s).getD i x = r.getD i x := by
  induction r generalizing i with
  | nil => simp at h
  | cons a as ih =>
    cases i with
    | zero => rfl
    | succ i' => exact ih i' (by simpa using h)

theorem getD_append_self {α : Type} (r : List α) (v x : α) :
    (r ++ [v]).getD r.length x = v := by
  induction r with
  | nil => rfl
  | cons a as ih => exact ih

/-! ## `colIdx` and `rowGet` lemmas -/

theorem colIdx_lt {cols : List String} {n : String} {i : Nat}
    (h : colIdx cols n = some i) : i < cols.length := by
  induction cols generalizing i with
  | nil => simp [colIdx] at h
  | cons c cs ih =>
    rw [colIdx] at h
    by_cases hc : c = n
    · rw [if_pos hc] at h
      cases h
      simp
    · rw [if_neg hc] at h
      cases hi : colIdx cs n with
      | none => rw [hi] at h; simp at h
      | some i' =>
        rw [hi] at h
        simp only [Option.map_some', Option.some.injEq] at h
        have := ih hi
        simp only [List.length_cons]
        omega

theorem colIdx_getElem? {cols : List String} {n : String} {i : Nat}
    (h : colIdx cols n = some i) : cols[i]? = some n := by
  induction cols generalizing i with
  | nil => simp [colIdx] at h
  | cons c cs ih =>
    rw [colIdx] at h
    by_cases hc : c = n
    · rw [if_pos hc] at h
      cases h
      simpa using hc
    · rw [if_neg hc] at h
      cases hi : colIdx cs n with
      | none => rw [hi] at h; simp at h
      | some i' =>
        rw [hi] at h
        simp only [Option.map_some', Option.some.injEq] at h
        rw [← h]
        simpa using ih hi

theorem colIdx_eq_none {cols : List String} {n : String}
    (h : n ∉ cols) : colIdx cols n = none := by
  induction cols with
  | nil => rfl
  | cons c cs ih =>
    have hc : ¬(c = n) := fun hc => h (by rw [hc]; exact List.mem_cons_self n cs)
    rw [colIdx, if_neg hc, ih fun hm => h (List.mem_cons_of_mem c hm)]
    rfl

theorem mem_of_colIdx_some {cols : List String} {n : String} {i : Nat}
    (h : colIdx cols n = some i) : n ∈ cols := by
  have := colIdx_getElem? h
  exact List.getElem?_mem this

theorem not_mem_of_colIdx_none {cols : List String} {n : String}
    (h : colIdx cols n = none) : n ∉ cols := by
  induction cols with
  | nil => simp
  | cons c cs ih =>
    rw [colIdx] at h
    by_cases hc : c = n
    · rw [if_pos hc] at h
      simp at h
    · rw [if_neg hc] at h
      cases hi : colIdx cs n with
      | some i' => rw [hi] at h; simp at h
      | none =>
        intro hm
        rcases List.mem_cons.mp hm with rfl | hm'
        · exact hc rfl
        · exact ih hi hm'

theorem colIdx_of_mem {cols : List String} {n : String} (h : n ∈ cols) :
    ∃ i, colIdx cols n = some i := by
  cases hc : colIdx cols n with
  | some i => exact ⟨i, rfl⟩
  | none => exact absurd h (not_mem_of_colIdx_none hc)

theorem colIdx_append_of_some {cols ds : List String} {n : String} {i : Nat}
    (h : colIdx cols n = some i) : colIdx (cols ++ ds) n = some i := by
  induction cols generalizing i with
  | nil => simp [colIdx] at h
  | cons c cs ih =>
    rw [colIdx] at h
    rw [List.cons_append, colIdx]
    by_cases hc : c = n
    · rw [if_pos hc] at h ⊢
      exact h
    · rw [if_neg hc] at h ⊢
      cases hi : colIdx cs n with
      | none => rw [hi] at h; simp at h
      | some i' =>
        rw [hi] at h
        rw [ih hi]
        exact h

theorem colIdx_append_singleton_self {cols : List String} {n : String}
    (h : colIdx cols n = none) : colIdx (cols ++ [n]) n = some cols.length := by
  induction cols with
  | nil => simp [colIdx]
  | cons c cs ih =>
    rw [colIdx] at h
    by_cases hc : c = n
    · rw [if_pos hc] at h
      simp at h
    · rw [if_neg hc] at h
      cases hi : colIdx cs n with
      | some i' => rw [hi] at h; simp at h
      | none =>
        rw [List.cons_append, colIdx, if_neg hc, ih hi]
        simp

theorem colIdx_append_singleton_ne {cols : List String} {n d : String}
    (h : colIdx cols n = none) (hnd : n ≠ d) : colIdx (cols ++ [d]) n = none := by
  induction cols with
  | nil => simp [colIdx, if_neg (fun hc : d = n => hnd hc.symm)]
  | cons c cs ih =>
    rw [colIdx] at h
    by_cases hc : c = n
    · rw [if_pos hc] at h
      simp at h
    · rw [if_neg hc] at h
      cases hi : colIdx cs n with
      | some i' => rw [hi] at h; simp at h
      | none =>
        rw [List.cons_append, colIdx, if_neg hc, ih hi]
        rfl

theorem colIdx_of_nodup {cols : List String} {n : String} {i : Nat}
    (hnd : cols.Nodup) (h : cols[i]? = some n) : colIdx cols n = some i := by
  induction cols generalizing i with
  | nil => simp at h
  | cons c cs ih =>
    cases i with
    | zero =>
      simp only [List.getElem?_cons_zero, Option.some.injEq] at h
      rw [colIdx, if_pos h]
    | succ i' =>
      simp only [List.getElem?_cons_succ] at h
      have hnd' : cs.Nodup := (List.nodup_cons.mp hnd).2
      have hcn : c ≠ n := by
        intro hc
        exact (List.nodup_cons.mp hnd).1 (hc ▸ List.getElem?_mem h)
      rw [colIdx, if_neg hcn, ih hnd' h]
      rfl

/-! ## Cell characterization of `applyCol` and `coerceTimestamps` -/

theorem DFwf_applyCol {df : DF} (hw : DFwf df) (n : String) (f : Value → Value) :
    DFwf (applyCol df n f) := by
  rw [applyCol]
  cases hc : colIdx df.cols n with
  | some i =>
    intro r hr
    simp only [List.mem_map] at hr
    obtain ⟨r0, hr0, rfl⟩ := hr
    simp only [List.length_set]
    exact hw r0 hr0
  | none =>
    intro r hr
    simp only [List.mem_map] at hr
    obtain ⟨r0, hr0, rfl⟩ := hr
    simp only [List.length_append, List.length_cons, List.length_nil]
    rw [hw r0 hr0]

theorem applyCol_rows_length (df : DF) (n : String) (f : Value → Value) :
    (applyCol df n f).rows.length = df.rows.length := by
  rw [applyCol]
  cases colIdx df.cols n <;> simp

theorem mem_rows_getD {α : Type} {rows : List (List α)} {j : Nat}
    (hj : j < rows.length) : rows.getD j [] ∈ rows := by
  have h : rows[j]? = some (rows.getD j []) := by
    rw [List.getElem?_eq_getElem hj]
    rw [List.getD_eq_getElem?_getD, List.getElem?_eq_getElem hj]
    rfl
  exact List.getElem?_mem h

theorem rowGet_some (cols : List String) (r : List Value) {name : String}
    {i : Nat} (h : colIdx cols name = some i) :
    rowGet cols r name = r.getD i .null := by
  rw [rowGet, h]

theorem rowGet_none (cols : List String) (r : List Value) {name : String}
    (h : colIdx cols name = none) : rowGet cols r name = .null := by
  rw [rowGet, h]

/-- How one `df[name] = ...` assignment reads back cell-wise: the assigned
column holds the transformed old cells (`None` when the column was absent);
every other label reads exactly as before. -/
theorem rowGet_applyCol (df : DF) (n : String) (f : Value → Value)
    (hw : DFwf df) (name : String) (j : Nat) (hj : j < df.rows.length) :
    rowGet (applyCol df n f).cols ((applyCol df n f).rows.getD j []) name =
      if name = n then f (rowGet df.cols (df.rows.getD j []) n)
      else rowGet df.cols (df.rows.getD j []) name := by
  have hrlen : (df.rows.getD j []).length = df.cols.length :=
    hw _ (mem_rows_getD hj)
  rw [applyCol]
  cases hc : colIdx df.cols n with
  | some i =>
    have hi : i < df.cols.length := colIdx_lt hc
    simp only
    rw [getD_map_lt _ _ _ _ [] hj]
    by_cases hname : name = n
    · subst hname
      rw [if_pos rfl, rowGet_some _ _ hc, rowGet_some _ _ hc,
        getD_set_self _ _ _ _ (by omega)]
    · rw [if_neg hname]
      cases hc' : colIdx df.cols name with
      | none => rw [rowGet_none _ _ hc', rowGet_none _ _ hc']
      | some i' =>
        have hne : i ≠ i' := by
          intro he
          have h1 := colIdx_getElem? hc
          have h2 := colIdx_getElem? hc'
          rw [he, h2] at h1
          injection h1 with h1
          exact hname h1
        rw [rowGet_some _ _ hc', rowGet_some _ _ hc',
          getD_set_ne _ _ _ _ _ hne]
  | none =>
    simp only
    rw [getD_map_lt _ _ _ _ [] hj]
    by_cases hname : name = n
    · subst hname
      rw [if_pos rfl, rowGet_some _ _ (colIdx_append_singleton_self hc),
        rowGet_none _ _ hc, ← hrlen, getD_append_self]
    · rw [if_neg hname]
      cases hc' : colIdx df.cols name with
      | none =>
        rw [rowGet_none _ _ (colIdx_append_singleton_ne hc' hname),
          rowGet_none _ _ hc']
      | some i' =>
        rw [rowGet_some _ _ (colIdx_append_of_some hc'), rowGet_some _ _ hc']
        exact getD_append_left _ _ _ _ (by rw [hrlen]; exact colIdx_lt hc')

/-- How the two timestamp assignments read back cell-wise: `start_time` and
`end_time` hold the coerced old cells (`NaT` when the source column was
absent, since `toDatetimeCell .null = .null`); every other label reads
exactly as before. -/
theorem rowGet_coerce (df : DF) (hw : DFwf df) (name : String) (j : Nat)
    (hj : j < df.rows.length) :
    rowGet (coerceTimestamps df).cols ((coerceTimestamps df).rows.getD j []) name =
      if name = "start_time" ∨ name = "end_time" then
        toDatetimeCell (rowGet df.cols (df.rows.getD j []) name)
      else rowGet df.cols (df.rows.getD j []) name := by
  have hw1 : DFwf (applyCol df "start_time" toDatetimeCell) :=
    DFwf_applyCol hw _ _
  have hj1 : j < (applyCol df "start_time" toDatetimeCell).rows.length := by
    rw [applyCol_rows_length]
    exact hj
  by_cases het : name = "end_time"
  · subst het
    rw [coerceTimestamps, rowGet_applyCol _ _ _ hw1 _ j hj1, if_pos rfl,
      rowGet_applyCol df _ _ hw _ j hj, if_neg (by decide),
      if_pos (Or.inr rfl)]
  · by_cases hst : name = "start_time"
    · subst hst
      rw [coerceTimestamps, rowGet_applyCol _ _ _ hw1 _ j hj1,
        if_neg (by decide), rowGet_applyCol df _ _ hw _ j hj, if_pos rfl,
        if_pos (Or.inl rfl)]
    · rw [coerceTimestamps, rowGet_applyCol _ _ _ hw1 _ j hj1, if_neg het,
        rowGet_applyCol df _ _ hw _ j hj, if_neg hst,
        if_neg (by simp [hst, het])]

/-! ## Projection lemmas -/

theorem normalizedRecords_getD {df : DF} {j : Nat} (hj : j < df.rows.length) :
    (normalizedRecords df).getD j [] = normalizedRecord df.cols (df.rows.getD j []) := by
  rw [normalizedRecords, getD_map_lt _ _ _ _ [] hj]

theorem fieldVal_some (rec : List Value) {d : String} {i : Nat}
    (h : colIdx DEST_COLUMNS d = some i) : fieldVal rec d = rec.getD i .null := by
  rw [fieldVal, h]

/-- Reading a NormalizedRecord field by destination name is `row.get` of that
name. -/
theorem fieldVal_normalizedRecord (cols : List String) (r : List Value)
    (d : String) (hd : d ∈ DEST_COLUMNS) :
    fieldVal (normalizedRecord cols r) d = rowGet cols r d := by
  obtain ⟨i, hi⟩ := colIdx_of_mem hd
  rw [fieldVal_some _ hi, normalizedRecord,
    getD_map_lt _ _ _ _ "" (colIdx_lt hi),
    getD_of_getElem? _ (colIdx_getElem? hi)]

/-- A NormalizedRecord depends only on the cells of columns labelled with a
destination name: updating any cell of a column whose label is not among
`DEST_COLUMNS` leaves the record unchanged. -/
theorem normalizedRecord_set_non_dest (cols : List String) (r : List Value)
    (i : Nat) (v : Value) (hnd : ∀ d ∈ DEST_COLUMNS, colIdx cols d ≠ some i) :
    normalizedRecord cols (r.set i v) = normalizedRecord cols r := by
  rw [normalizedRecord, normalizedRecord]
  refine List.map_congr_left fun d hd => ?_
  cases hc : colIdx cols d with
  | none => rw [rowGet_none _ _ hc, rowGet_none _ _ hc]
  | some i' =>
    have hne : i ≠ i' := fun he => hnd d hd (he ▸ hc)
    rw [rowGet_some _ _ hc, rowGet_some _ _ hc, getD_set_ne _ _ _ _ _ hne]

/-! ## Digit and timestamp-parser lemmas -/

theorem isDigitCh_digitChar_mod (n : Nat) :
    isDigitCh (Nat.digitChar (n % 10)) = true := by
  rcases (by omega : n % 10 = 0 ∨ n % 10 = 1 ∨ n % 10 = 2 ∨ n % 10 = 3 ∨
      n % 10 = 4 ∨ n % 10 = 5 ∨ n % 10 = 6 ∨ n % 10 = 7 ∨ n % 10 = 8 ∨
      n % 10 = 9) with
    h | h | h | h | h | h | h | h | h | h <;> rw [h] <;> decide

theorem digitVal_digitChar_mod (n : Nat) :
    digitVal (Nat.digitChar (n % 10)) = n % 10 := by
  rcases (by omega : n % 10 = 0 ∨ n % 10 = 1 ∨ n % 10 = 2 ∨ n % 10 = 3 ∨
      n % 10 = 4 ∨ n % 10 = 5 ∨ n % 10 = 6 ∨ n % 10 = 7 ∨ n % 10 = 8 ∨
      n % 10 = 9) with
    h | h | h | h | h | h | h | h | h | h <;> rw [h] <;> decide

theorem digitsVal_pad2 (n : Nat) (h : n ≤ 99) : digitsVal (pad2 n) = n := by
  simp only [pad2, digitsVal, List.foldl, digitVal_digitChar_mod]
  omega

theorem digitsVal_pad4 (n : Nat) (h : n ≤ 9999) : digitsVal (pad4 n) = n := by
  simp only [pad4, digitsVal, List.foldl, digitVal_digitChar_mod]
  omega

/-- A rendered in-range ISO 8601 date-time string parses back to exactly its
components: the model's version of "a syntactically valid date-time string
parses to a non-null timestamp". -/
theorem parseTimestamp_renderIso (y m d hh nn : Nat) (hy : y ≤ 9999)
    (hm1 : 1 ≤ m) (hm2 : m ≤ 12) (hd1 : 1 ≤ d) (hd2 : d ≤ daysInMonth y m)
    (hh2 : hh ≤ 23) (hn2 : nn ≤ 59) :
    parseTimestamp (renderIso y m d hh nn) = some ⟨y, m, d, hh, nn, 0⟩ := by
  show parseTimestampChars
    (Nat.digitChar (y / 1000 % 10) :: Nat.digitChar (y / 100 % 10) ::
      Nat.digitChar (y / 10 % 10) :: Nat.digitChar (y % 10) :: '-' ::
      Nat.digitChar (m / 10 % 10) :: Nat.digitChar (m % 10) :: '-' ::
      Nat.digitChar (d / 10 % 10) :: Nat.digitChar (d % 10) :: 'T' ::
      Nat.digitChar (hh / 10 % 10) :: Nat.digitChar (hh % 10) :: ':' ::
      Nat.digitChar (nn / 10 % 10) :: Nat.digitChar (nn % 10) :: []) =
    some ⟨y, m, d, hh, nn, 0⟩
  rw [parseTimestampChars]
  have hd99 : d ≤ 99 := by
    have h31 : daysInMonth y m ≤ 31 := by
      rw [daysInMonth]
      split
      · split <;> omega
      · split <;> omega
    omega
  have em : digitsVal [Nat.digitChar (m / 10 % 10), Nat.digitChar (m % 10)] = m :=
    digitsVal_pad2 m (by omega)
  have ed : digitsVal [Nat.digitChar (d / 10 % 10), Nat.digitChar (d % 10)] = d :=
    digitsVal_pad2 d hd99
  have eh : digitsVal [Nat.digitChar (hh / 10 % 10), Nat.digitChar (hh % 10)] = hh :=
    digitsVal_pad2 hh (by omega)
  have en : digitsVal [Nat.digitChar (nn / 10 % 10), Nat.digitChar (nn % 10)] = nn :=
    digitsVal_pad2 nn (by omega)
  have ey : digitsVal [Nat.digitChar (y / 1000 % 10), Nat.digitChar (y / 100 % 10),
      Nat.digitChar (y / 10 % 10), Nat.digitChar (y % 10)] = y :=
    digitsVal_pad4 y hy
  rw [if_pos (by simp [isDigitCh_digitChar_mod])]
  simp only [ey, em, ed]
  rw [if_pos ⟨hm1, hm2, hd1, hd2⟩]
  simp only [parseTimeTail]
  rw [if_pos (by simp [isDigitCh_digitChar_mod])]
  simp only [eh, en]
  rw [if_pos ⟨by omega, by omega⟩]

theorem coerce_rows_length (df : DF) :
    (coerceTimestamps df).rows.length = df.rows.length := by
  rw [coerceTimestamps, applyCol_rows_length, applyCol_rows_length]

/-- C5: timestamp coercion is total and error-absorbing — a syntactically
valid (in-range ISO) date-time string coerces to a non-null timestamp value;
the empty string and nonsensical text coerce to a null marker without any
error value (`toDatetimeCell` is a total function into `Value`); and when the
source column is absent from the DataFrame the `start_time` field of every
NormalizedRecord is a null marker directly (`pd.to_datetime(None)` — no cell
is ever parsed). -/
theorem timestamp_coercion_total :
    (∀ y m d hh nn : Nat, y ≤ 9999 → 1 ≤ m → m ≤ 12 → 1 ≤ d →
      d ≤ daysInMonth y m → hh ≤ 23 → nn ≤ 59 →
      toDatetimeCell (.text (renderIso y m d hh nn)) =
        .timestamp (.civil ⟨y, m, d, hh, nn, 0⟩)) ∧
    toDatetimeCell (.text "") = .null ∧
    toDatetimeCell (.text "not a date") = .null ∧
    toDatetimeCell (.text "2024-13-01") = .null ∧
    toDatetimeCell .nan = .null ∧
    toDatetimeCell .null = .null ∧
    (∀ df : DF, DFwf df → colIdx df.cols "start_time" = none →
      ∀ j, j < df.rows.length →
      fieldVal ((normalizedRecords (coerceTimestamps df)).getD j []) "start_time" =
        .null) := by
  refine ⟨?_, by decide, by decide, by decide, rfl, rfl, ?_⟩
  · intro y m d hh nn hy hm1 hm2 hd1 hd2 hh2 hn2
    simp only [toDatetimeCell]
    rw [parseTimestamp_renderIso y m d hh nn hy hm1 hm2 hd1 hd2 hh2 hn2]
  · intro df hw hst j hj
    have hj' : j < (coerceTimestamps df).rows.length := by
      rw [coerce_rows_length]
      exact hj
    rw [normalizedRecords_getD hj',
      fieldVal_normalizedRecord _ _ _ (by decide),
      rowGet_coerce df hw _ j hj, if_pos (Or.inl rfl), rowGet_none _ _ hst]
    rfl

/-- C5 witness: a concrete valid string coerces to a timestamp; with the
source column absent, the record's `start_time` is null. -/
theorem timestamp_coercion_total_witness :
    toDatetimeCell (.text (renderIso 2024 1 1 10 30)) =
      .timestamp (.civil ⟨2024, 1, 1, 10, 30, 0⟩) ∧
    fieldVal ((normalizedRecords
        (coerceTimestamps ⟨["gender"], [[Value.text "F"]]⟩)).getD 0 [])
      "start_time" = .null :=
  ⟨timestamp_coercion_total.1 2024 1 1 10 30 (by decide) (by decide) (by decide)
      (by decide) (by decide) (by decide) (by decide),
   timestamp_coercion_total.2.2.2.2.2.2 ⟨["gender"], [[Value.text "F"]]⟩
      (by intro r hr; simp at hr; rw [hr]; rfl) (by decide) 0 (by decide)⟩

theorem set_getD_self {α : Type} (l : List α) (i : Nat) (x : α)
    (h : i < l.length) : l.set i (l.getD i x) = l := by
  induction l generalizing i with
  | nil => simp at h
  | cons a as ih =>
    cases i with
    | zero => rfl
    | succ i' =>
      show a :: as.set i' (as.getD i' x) = a :: as
      rw [ih i' (by simpa using h)]

theorem applyCol_some {df : DF} {n : String} {f : Value → Value} {i : Nat}
    (h : colIdx df.cols n = some i) :
    applyCol df n f = ⟨df.cols, df.rows.map (coerceRowAt (some i) f)⟩ := by
  rw [applyCol, h]
  rfl

theorem applyCol_none {df : DF} {n : String} {f : Value → Value}
    (h : colIdx df.cols n = none) :
    applyCol df n f = ⟨df.cols ++ [n], df.rows.map (coerceRowAt none f)⟩ := by
  rw [applyCol, h]
  rfl

theorem applyCol_mk_some {cols : List String} {rows : List (List Value)}
    {n : String} {f : Value → Value} {i : Nat} (h : colIdx cols n = some i) :
    applyCol ⟨cols, rows⟩ n f = ⟨cols, rows.map (coerceRowAt (some i) f)⟩ :=
  applyCol_some h

theorem applyCol_mk_none {cols : List String} {rows : List (List Value)}
    {n : String} {f : Value → Value} (h : colIdx cols n = none) :
    applyCol ⟨cols, rows⟩ n f = ⟨cols ++ [n], rows.map (coerceRowAt none f)⟩ :=
  applyCol_none h

/-- The two timestamp assignments, decomposed into a column-list change and a
per-row map. -/
theorem coerce_eq (df : DF) :
    coerceTimestamps df =
      ⟨coerceCols2 df.cols, df.rows.map (coerceRowFun df.cols)⟩ := by
  rw [coerceTimestamps]
  cases h1 : colIdx df.cols "start_time" with
  | some i =>
    have hc1 : coerceCols1 df.cols = df.cols := by rw [coerceCols1, h1]
    rw [applyCol_some h1]
    cases h2 : colIdx (coerceCols1 df.cols) "end_time" with
    | some i2 =>
      have h2' : colIdx df.cols "end_time" = some i2 := by rw [← hc1]; exact h2
      rw [applyCol_mk_some h2', List.map_map]
      have hcols : coerceCols2 df.cols = df.cols := by
        rw [coerceCols2, h2, hc1]
      rw [hcols]
      refine congrArg (DF.mk df.cols) (List.map_congr_left fun r hr => ?_)
      simp only [coerceRowFun, h1, h2, Function.comp_apply]
    | none =>
      have h2' : colIdx df.cols "end_time" = none := by rw [← hc1]; exact h2
      rw [applyCol_mk_none h2', List.map_map]
      have hcols : coerceCols2 df.cols = df.cols ++ ["end_time"] := by
        rw [coerceCols2, h2, hc1]
      rw [hcols]
      refine congrArg (DF.mk (df.cols ++ ["end_time"]))
        (List.map_congr_left fun r hr => ?_)
      simp only [coerceRowFun, h1, h2, Function.comp_apply]
  | none =>
    have hc1 : coerceCols1 df.cols = df.cols ++ ["start_time"] := by
      rw [coerceCols1, h1]
    rw [applyCol_none h1]
    cases h2 : colIdx (coerceCols1 df.cols) "end_time" with
    | some i2 =>
      have h2' : colIdx (df.cols ++ ["start_time"]) "end_time" = some i2 := by
        rw [← hc1]; exact h2
      rw [applyCol_mk_some h2', List.map_map]
      have hcols : coerceCols2 df.cols = df.cols ++ ["start_time"] := by
        rw [coerceCols2, h2, hc1]
      rw [hcols]
      refine congrArg (DF.mk (df.cols ++ ["start_time"]))
        (List.map_congr_left fun r hr => ?_)
      simp only [coerceRowFun, h1, h2, Function.comp_apply]
    | none =>
      have h2' : colIdx (df.cols ++ ["start_time"]) "end_time" = none := by
        rw [← hc1]; exact h2
      rw [applyCol_mk_none h2', List.map_map]
      have hcols : coerceCols2 df.cols = df.cols ++ ["start_time"] ++ ["end_time"] := by
        rw [coerceCols2, h2, hc1]
      rw [hcols]
      refine congrArg (DF.mk (df.cols ++ ["start_time"] ++ ["end_time"]))
        (List.map_congr_left fun r hr => ?_)
      simp only [coerceRowFun, h1, h2, Function.comp_apply]

/-! ## Claim C10: frame property of `df.rename(columns=COLUMN_MAPPING)` -/

/-- C10: the rename step only maps column names positionally — rows (all
values) are untouched; a column whose label has no entry in `COLUMN_MAPPING`
keeps its name (and values) at the same position; and such columns are
excluded from the destination only by the 14-column projection at insert
time, in the sense that the projection ignores every column whose label is
not a destination column name (updating any of its cells changes no
NormalizedRecord). -/
theorem rename_frame :
    (∀ df : DF, (renameColumns df).rows = df.rows ∧
      (renameColumns df).cols.length = df.cols.length ∧
      ∀ (i : Nat) (k : String), df.cols[i]? = some k →
        (renameColumns df).cols[i]? = some (renameCol k)) ∧
    (∀ k, lookupMapping k = none → renameCol k = k) ∧
    (∀ (cols : List String) (r : List Value) (i : Nat) (v : Value) (n : String),
      cols[i]? = some n → n ∉ DEST_COLUMNS →
      normalizedRecord cols (r.set i v) = normalizedRecord cols r) := by
  refine ⟨fun df => ⟨rfl, by simp [renameColumns], fun i k hik => ?_⟩,
    fun k hk => by rw [renameCol, hk], fun cols r i v n hin hnd => ?_⟩
  · rw [renameColumns]
    simp only [List.getElem?_map, hik, Option.map_some']
  · refine normalizedRecord_set_non_dest cols r i v fun d hd hc => ?_
    have := colIdx_getElem? hc
    rw [hin] at this
    injection this with this
    rw [← this] at hd
    exact hnd hd

/-- C10 witness: a concrete unmapped column keeps its name and values, and
its cells do not influence the NormalizedRecord. -/
theorem rename_frame_witness :
    (renameColumns ⟨["extra"], [[Value.text "v"]]⟩).rows = [[Value.text "v"]] ∧
    renameCol "extra" = "extra" ∧
    normalizedRecord ["extra"] ([Value.text "x"].set 0 (Value.text "y")) =
      normalizedRecord ["extra"] [Value.text "x"] :=
  ⟨(rename_frame.1 ⟨["extra"], [[Value.text "v"]]⟩).1,
   rename_frame.2.1 "extra" (by decide),
   rename_frame.2.2 ["extra"] [Value.text "x"] 0 (Value.text "y") "extra"
     (by decide) (by decide)⟩

/-! ## Claim C6 (amended): renaming as a pure lookup -/

theorem mapping_renameCol {k dn : String} (h : (k, dn) ∈ COLUMN_MAPPING) :
    renameCol k = dn ∧ dn ∈ DEST_COLUMNS := by
  have hall : ∀ p ∈ COLUMN_MAPPING, renameCol p.1 = p.2 ∧ p.2 ∈ DEST_COLUMNS := by
    decide
  exact hall (k, dn) h

/-- The timestamp assignments only ever append column names at the end. -/
theorem coerceCols2_suffix (cols : List String) :
    ∃ s, coerceCols2 cols = cols ++ s := by
  rw [coerceCols2]
  cases h2 : colIdx (coerceCols1 cols) "end_time" with
  | some i2 =>
    rw [coerceCols1]
    cases h1 : colIdx cols "start_time" with
    | some i1 => exact ⟨[], by simp⟩
    | none => exact ⟨["start_time"], rfl⟩
  | none =>
    rw [coerceCols1]
    cases h1 : colIdx cols "start_time" with
    | some i1 => exact ⟨["end_time"], rfl⟩
    | none => exact ⟨["start_time", "end_time"], by simp⟩

theorem coerceRowAt_length_ge (idx : Option Nat) (f : Value → Value)
    (r : List Value) : r.length ≤ (coerceRowAt idx f r).length := by
  cases idx with
  | some i => simp [coerceRowAt]
  | none => simp [coerceRowAt]

theorem coerceRowAt_set_comm (idx : Option Nat) (f : Value → Value)
    (r : List Value) (i : Nat) (v : Value)
    (h : ∀ i', idx = some i' → i' ≠ i) (hlen : i < r.length) :
    coerceRowAt idx f (r.set i v) = (coerceRowAt idx f r).set i v := by
  cases idx with
  | none =>
    show r.set i v ++ [f .null] = (r ++ [f .null]).set i v
    rw [List.set_append_left _ _ hlen]
  | some i1 =>
    have hne : i1 ≠ i := h i1 rfl
    show (r.set i v).set i1 (f ((r.set i v).getD i1 .null)) =
      (r.set i1 (f (r.getD i1 .null))).set i v
    rw [getD_set_ne _ _ _ _ _ (fun he => hne he.symm),
      List.set_comm _ _ _ (fun he => hne he.symm)]

/-- C6 (amended): over the canonicalized header list `cs`, renaming is a pure
lookup over the fixed 14-entry `COLUMN_MAPPING`:

* (mapped labels appear) every canonical label `k` with entry `(k, dn)` in
  the mapping surfaces in every NormalizedRecord under its mapped destination
  name `dn`, holding that column's cell (timestamp-coerced when `dn` is
  `start_time`/`end_time`);
* (unmapped labels are inert — the amendment) a canonical label absent from
  the mapping, *provided it is not itself one of the 14 destination column
  names*, never appears in any NormalizedRecord: its column's cells have no
  influence on the records.  (The proviso is necessary: an unmapped label
  equal to a destination name, e.g. `consent`, is picked up by the insert
  projection — see the counterexample.) -/
theorem mapping_pure_lookup :
    ∀ (cs : List String) (rows : List (List Value)),
    (∀ r ∈ rows, r.length = cs.length) →
    (cs.map renameCol).Nodup →
    (∀ (k dn : String) (i j : Nat), (k, dn) ∈ COLUMN_MAPPING →
      cs[i]? = some k → j < rows.length →
      fieldVal ((normalizedRecords
          (coerceTimestamps ⟨cs.map renameCol, rows⟩)).getD j []) dn =
        (if dn = "start_time" ∨ dn = "end_time"
         then toDatetimeCell ((rows.getD j []).getD i .null)
         else (rows.getD j []).getD i .null)) ∧
    (∀ (i : Nat) (k : String), cs[i]? = some k → lookupMapping k = none →
      k ∉ DEST_COLUMNS → ∀ (j : Nat) (v : Value), j < rows.length →
      normalizedRecords
          (coerceTimestamps ⟨cs.map renameCol, updateCell rows j i v⟩) =
        normalizedRecords (coerceTimestamps ⟨cs.map renameCol, rows⟩)) := by
  intro cs rows hw hnd
  have hwdf : DFwf ⟨cs.map renameCol, rows⟩ := by
    intro r hr
    simp only [List.length_map]
    exact hw r hr
  constructor
  · intro k dn i j hkdn hik hj
    obtain ⟨hrk, hdnD⟩ := mapping_renameCol hkdn
    have hik' : (cs.map renameCol)[i]? = some dn := by
      rw [List.getElem?_map, hik, Option.map_some', hrk]
    have hci : colIdx (cs.map renameCol) dn = some i := colIdx_of_nodup hnd hik'
    have hj2 : j < (coerceTimestamps ⟨cs.map renameCol, rows⟩).rows.length := by
      rw [coerce_rows_length]
      exact hj
    rw [normalizedRecords_getD hj2, fieldVal_normalizedRecord _ _ _ hdnD,
      rowGet_coerce _ hwdf _ j hj, rowGet_some _ _ hci]
  · intro i k hik hkm hkD j v hj
    have hrk : renameCol k = k := by rw [renameCol, hkm]
    have hik' : (cs.map renameCol)[i]? = some k := by
      rw [List.getElem?_map, hik, Option.map_some', hrk]
    have hilt : i < (cs.map renameCol).length := by
      by_contra hc
      rw [List.getElem?_eq_none (by omega)] at hik'
      simp at hik'
    have hknotst : k ≠ "start_time" := fun he => hkD (he ▸ (by decide))
    have hknotet : k ≠ "end_time" := fun he => hkD (he ▸ (by decide))
    rw [coerce_eq, coerce_eq]
    simp only [normalizedRecords]
    set cols' := cs.map renameCol with hcols'
    set rowj := rows.getD j [] with hrowj
    have hcslen : cols'.length = cs.length := by
      rw [hcols']
      simp
    have hrjlen : rowj.length = cs.length := hw _ (mem_rows_getD hj)
    have hilt2 : i < rowj.length := by
      rw [hrjlen, ← hcslen]
      exact hilt
    rw [updateCell, ← hrowj, List.map_set, List.map_set]
    have hfcomm : coerceRowFun cols' (rowj.set i v) =
        (coerceRowFun cols' rowj).set i v := by
      rw [coerceRowFun, coerceRowFun,
        coerceRowAt_set_comm _ _ _ _ _ ?h1 hilt2,
        coerceRowAt_set_comm _ _ _ _ _ ?h2
          (lt_of_lt_of_le hilt2 (coerceRowAt_length_ge _ _ _))]
      case h1 =>
        intro i1 hi1 he
        have := colIdx_getElem? hi1
        rw [he, hik'] at this
        injection this with this
        exact hknotst this
      case h2 =>
        intro i2 hi2 he
        have h2e := colIdx_getElem? hi2
        have hc1 : (coerceCols1 cols')[i]? = some k := by
          rw [coerceCols1]
          cases hst : colIdx cols' "start_time" with
          | some i1 => exact hik'
          | none => rw [List.getElem?_append_left hilt]; exact hik'
        rw [he, hc1] at h2e
        injection h2e with h2e
        exact hknotet h2e
    rw [hfcomm]
    have hnonD : ∀ d ∈ DEST_COLUMNS, colIdx (coerceCols2 cols') d ≠ some i := by
      intro d hd hc
      obtain ⟨sfx, hsfx⟩ := coerceCols2_suffix cols'
      have := colIdx_getElem? hc
      rw [hsfx, List.getElem?_append_left hilt, hik'] at this
      injection this with this
      rw [← this] at hd
      exact hkD hd
    rw [normalizedRecord_set_non_dest _ _ _ _ hnonD]
    have hjlt2 : j < ((rows.map (coerceRowFun cols')).map
        (normalizedRecord (coerceCols2 cols'))).length := by
      simpa using hj
    have helem : ((rows.map (coerceRowFun cols')).map
        (normalizedRecord (coerceCols2 cols'))).getD j [] =
        normalizedRecord (coerceCols2 cols') (coerceRowFun cols' rowj) := by
      rw [getD_map_lt _ _ _ _ [] (by simpa using hj),
        getD_map_lt _ _ _ _ [] hj, hrowj]
    rw [← helem, set_getD_self _ _ _ hjlt2]

/-- C6 witness: a mapped label's value surfaces under its destination name,
and a label that is neither mapped nor a destination name has no influence. -/
theorem mapping_pure_lookup_witness :
    fieldVal ((normalizedRecords (coerceTimestamps
        ⟨["gender"].map renameCol, [[Value.text "F"]]⟩)).getD 0 []) "gender" =
      Value.text "F" ∧
    normalizedRecords (coerceTimestamps
        ⟨["surplus"].map renameCol, updateCell [[Value.text "a"]] 0 0 (Value.text "b")⟩) =
      normalizedRecords (coerceTimestamps
        ⟨["surplus"].map renameCol, [[Value.text "a"]]⟩) := by
  constructor
  · have h := (mapping_pure_lookup ["gender"] [[Value.text "F"]] (by decide)
      (by decide)).1 "gender" "gender" 0 0 (by decide) (by decide) (by decide)
    rw [h]
    decide
  · exact (mapping_pure_lookup ["surplus"] [[Value.text "a"]] (by decide)
      (by decide)).2 0 "surplus" (by decide) (by decide) (by decide) 0
      (Value.text "b") (by decide)

/-! ## Claim C3 (amended): which rows the parser drops -/

theorem filter_length_compl {α : Type} (p : α → Bool) (l : List α) :
    (l.filter p).length + (l.filter (fun a => !(p a))).length = l.length := by
  induction l with
  | nil => rfl
  | cons a as ih =>
    by_cases hp : p a = true
    · rw [List.filter_cons_of_pos hp, List.filter_cons_of_neg (by simp [hp])]
      simp only [List.length_cons]
      omega
    · rw [List.filter_cons_of_neg hp,
        List.filter_cons_of_pos (by simp [Bool.eq_false_iff.mpr hp])]
      simp only [List.length_cons]
      omega

theorem padTo_length {n : Nat} {l : List (Option String)} (h : l.length ≤ n) :
    (padTo n l).length = n := by
  rw [padTo]
  simp only [List.length_append, List.length_replicate]
  omega

/-- Every row of a parsed table is padded to exactly the header arity. -/
theorem rawParse_wf {text : String} {t : RawTable} (h : rawParse text = some t) :
    ∀ r ∈ t.rws, r.length = t.hdr.length := by
  rw [rawParse] at h
  cases hl : linesOf text with
  | nil => rw [hl] at h; simp at h
  | cons hd rest =>
    rw [hl] at h
    simp only [Option.some.injEq] at h
    subst h
    intro r hr
    simp only [List.mem_map, List.mem_filter] at hr
    obtain ⟨l, ⟨_, hlen⟩, rfl⟩ := hr
    simp only [decide_eq_true_eq] at hlen
    exact padTo_length (by simpa using hlen)

/-- C3 (amended): `pd.read_csv(..., on_bad_lines="skip")` silently drops
exactly the data lines with MORE fields than the header; a line with fewer
fields than the header is NOT dropped — it is kept, padded with `NaN` cells
up to the header arity.  Parsing itself never fails when a header line
exists, and no error or count of dropped lines is reported. -/
theorem bad_lines_only_long (text : String) (hd : List Char)
    (rest : List (List Char)) (hl : linesOf text = hd :: rest) :
    (rawParse text).isSome = true ∧
    ∀ t, rawParse text = some t →
      t.hdr = fieldsOf hd ∧
      t.rws.length +
        (rest.filter
          (fun l => !((fieldsOf l).length ≤ (fieldsOf hd).length))).length =
        rest.length ∧
      (∀ r ∈ t.rws, r.length = t.hdr.length) := by
  constructor
  · rw [rawParse, hl]
    rfl
  · intro t ht
    refine ⟨?_, ?_, rawParse_wf ht⟩
    · rw [rawParse, hl] at ht
      simp only [Option.some.injEq] at ht
      rw [← ht]
    · rw [rawParse, hl] at ht
      simp only [Option.some.injEq] at ht
      subst ht
      simp only [List.length_map]
      exact filter_length_compl _ rest

/-- C3-amended witness: with header arity 2, a one-field row is kept and a
three-field row is dropped, so 2 of the 3 data rows survive. -/
theorem bad_lines_only_long_witness :
    (rawParse "A;B\na;b\nx\np;q;r").isSome = true ∧
    ∀ t, rawParse "A;B\na;b\nx\np;q;r" = some t →
      t.hdr = fieldsOf ("A;B").data ∧
      t.rws.length +
        ((["a;b".data, "x".data, "p;q;r".data]).filter
          (fun l => !((fieldsOf l).length ≤ (fieldsOf ("A;B").data).length))).length =
        (["a;b".data, "x".data, "p;q;r".data]).length ∧
      (∀ r ∈ t.rws, r.length = t.hdr.length) :=
  bad_lines_only_long "A;B\na;b\nx\np;q;r" ("A;B").data
    ["a;b".data, "x".data, "p;q;r".data] (by decide)

/-! ## Claim C7 (amended): projection is verbatim only for non-inferred
columns -/

theorem transform_eq {text : String} {t : RawTable} (h : rawParse text = some t) :
    transform text = some (coerceTimestamps
      ⟨(t.hdr.map canonicalize).map renameCol,
        t.rws.map (inferRow (colFlags t))⟩) := by
  rw [transform, h]
  rfl

theorem inferRow_getD (bs : List Bool) (r : List (Option String)) (i : Nat)
    (h1 : i < bs.length) (h2 : i < r.length) :
    (inferRow bs r).getD i .null = inferCell (bs.getD i false) (r.getD i none) := by
  induction bs generalizing r i with
  | nil => simp at h1
  | cons b bs ih =>
    cases r with
    | nil => simp at h2
    | cons c r =>
      cases i with
      | zero => rfl
      | succ i' => exact ih r i' (by simpa using h1) (by simpa using h2)

theorem colFlags_getD (t : RawTable) (i : Nat) (h : i < t.hdr.length) :
    (colFlags t).getD i false = colIsInt t i := by
  rw [colFlags, getD_map_lt _ _ _ _ 0 (by simpa using h),
    getD_of_getElem? _ (List.getElem?_range h)]

theorem colFlags_length (t : RawTable) : (colFlags t).length = t.hdr.length := by
  rw [colFlags]
  simp

theorem inferRow_length (bs : List Bool) (r : List (Option String)) :
    (inferRow bs r).length = min bs.length r.length := by
  rw [inferRow]
  simp

/-- C7 (amended): for every NormalizedRecord and every mapped field other
than `start_time`/`end_time`, the field is determined by the (first) working
column carrying that destination name:

* if no such column exists, the field is a null marker (`row.get` returns
  `None`) — NOT the empty string;
* if the column exists and the row's cell is missing (short row or empty CSV
  field), the field is `NaN`;
* if the cell is present, the field holds the cell's text verbatim UNLESS
  the column was read as an integer column by dtype inference (every cell an
  integer literal), in which case the field holds the parsed integer — not
  the verbatim source text. -/
theorem projection_text_or_inferred :
    (∀ s, inferCell false (some s) = Value.text s) ∧
    (∀ b : Bool, inferCell b none = Value.nan) ∧
    (∀ s, inferCell true (some s) = Value.int (strToInt s)) ∧
    ∀ (text : String) (t : RawTable) (df : DF), rawParse text = some t →
      transform text = some df →
      ∀ dn ∈ DEST_COLUMNS, dn ≠ "start_time" → dn ≠ "end_time" →
      ∀ j, j < t.rws.length →
      fieldVal ((normalizedRecords df).getD j []) dn =
        (match colIdx ((t.hdr.map canonicalize).map renameCol) dn with
         | none => Value.null
         | some i => inferCell (colIsInt t i) ((t.rws.getD j []).getD i none)) := by
  refine ⟨fun s => rfl, fun b => by cases b <;> rfl, fun s => rfl, ?_⟩
  intro text t df hp ht dn hdn hst het j hj
  rw [transform_eq hp] at ht
  simp only [Option.some.injEq] at ht
  subst ht
  have hwdf : DFwf ⟨(t.hdr.map canonicalize).map renameCol,
      t.rws.map (inferRow (colFlags t))⟩ := by
    intro r hr
    simp only [List.mem_map] at hr
    obtain ⟨r0, hr0, rfl⟩ := hr
    rw [inferRow_length, colFlags_length, rawParse_wf hp r0 hr0]
    simp
  have hj1 : j < (t.rws.map (inferRow (colFlags t))).length := by simpa using hj
  have hj2 : j < (coerceTimestamps ⟨(t.hdr.map canonicalize).map renameCol,
      t.rws.map (inferRow (colFlags t))⟩).rows.length := by
    rw [coerce_rows_length]
    exact hj1
  rw [normalizedRecords_getD hj2, fieldVal_normalizedRecord _ _ _ hdn,
    rowGet_coerce _ hwdf _ j hj1, if_neg (by simp [hst, het])]
  have hrow : (t.rws.map (inferRow (colFlags t))).getD j [] =
      inferRow (colFlags t) (t.rws.getD j []) :=
    getD_map_lt _ _ _ _ [] hj
  rw [hrow]
  have hrjlen : (t.rws.getD j []).length = t.hdr.length :=
    rawParse_wf hp _ (mem_rows_getD hj)
  cases hc : colIdx ((t.hdr.map canonicalize).map renameCol) dn with
  | none => rw [rowGet_none _ _ hc]
  | some i =>
    have hi : i < t.hdr.length := by
      have := colIdx_lt hc
      simpa using this
    rw [rowGet_some _ _ hc,
      inferRow_getD _ _ _ (by rw [colFlags_length]; exact hi)
        (by rw [hrjlen]; exact hi),
      colFlags_getD t i hi]

/-- C7-amended witness: a text cell passes through verbatim, an all-integer
column is reformatted, and an absent column yields null. -/
theorem projection_text_or_inferred_witness :
    inferCell false (some "007") = Value.text "007" ∧
    inferCell true (some "007") = Value.int (strToInt "007") ∧
    fieldVal ((normalizedRecords (coerceTimestamps
        ⟨(["Gender", "Age"].map canonicalize).map renameCol,
          [[Value.text "F", Value.int 1]]⟩)).getD 0 []) "gender" =
      Value.text "F" := by
  refine ⟨projection_text_or_inferred.1 "007",
    projection_text_or_inferred.2.2.1 "007", ?_⟩
  have h := projection_text_or_inferred.2.2.2 "Gender;Age\nF;01"
    ⟨["Gender", "Age"], [[some "F", some "01"]]⟩
    (coerceTimestamps ⟨(["Gender", "Age"].map canonicalize).map renameCol,
      [[Value.text "F", Value.int 1]]⟩) (by decide) (by decide) "gender"
    (by decide) (by decide) (by decide) 0 (by decide)
  rw [h]
  decide

/-! ## Claim C8: count and order preservation -/

theorem rowPipeline_eq (t : RawTable) (r : List (Option String)) :
    rowPipeline t r =
      normalizedRecord (coerceCols2 ((t.hdr.map canonicalize).map renameCol))
        (coerceRowFun ((t.hdr.map canonicalize).map renameCol)
          (inferRow (colFlags t) r)) := rfl

/-- C8: the Transformer produces exactly one NormalizedRecord per parsed row
(rows the parser dropped excluded), and the output is the per-row map
`rowPipeline` over the parsed rows in their original order: the `j`-th output
record is a function of the `j`-th parsed row (and table-level column
analysis only), so no reordering, duplication, or loss occurs. -/
theorem transform_count_order :
    ∀ (text : String) (t : RawTable), rawParse text = some t →
    ∃ df, transform text = some df ∧
      normalizedRecords df = t.rws.map (rowPipeline t) ∧
      (normalizedRecords df).length = t.rws.length ∧
      ∀ j : Nat, (normalizedRecords df)[j]? = (t.rws[j]?).map (rowPipeline t) := by
  intro text t hp
  have hmap : normalizedRecords (coerceTimestamps
      ⟨(t.hdr.map canonicalize).map renameCol,
        t.rws.map (inferRow (colFlags t))⟩) = t.rws.map (rowPipeline t) := by
    rw [normalizedRecords, coerce_eq]
    simp only
    rw [List.map_map, List.map_map]
    refine List.map_congr_left fun r hr => ?_
    rw [rowPipeline_eq]
    rfl
  refine ⟨_, transform_eq hp, hmap, ?_, ?_⟩
  · rw [hmap]
    simp
  · intro j
    rw [hmap, List.getElem?_map]

/-- C8 witness: two parsed rows yield exactly two records. -/
theorem transform_count_order_witness :
    (transform "A;B\n1;x\n2;y").map
      (fun df => (normalizedRecords df).length) = some 2 := by
  obtain ⟨df, hdf, _, hlen, _⟩ := transform_count_order "A;B\n1;x\n2;y"
    ⟨["A", "B"], [[some "1", some "x"], [some "2", some "y"]]⟩ (by decide)
  rw [hdf, Option.map_some', hlen]
  rfl

/-! ## Loader lemmas -/

theorem createSchemaOp_tables (db : DBState) (s : String) :
    (createSchemaOp db s).tables = db.tables := by
  rw [createSchemaOp]
  split <;> rfl

theorem createSchemaOp_mem (db : DBState) (s : String) :
    s ∈ (createSchemaOp db s).schemas := by
  rw [createSchemaOp]
  split
  · assumption
  · simp

theorem lookupTable_mk (schemas : List String)
    (ts : List ((String × String) × List (List Value))) (k : String × String) :
    lookupTable ⟨schemas, ts⟩ k = (ts.find? (fun e => decide (e.1 = k))).map (·.2) :=
  rfl

theorem find?_filter_ne (ts : List ((String × String) × List (List Value)))
    (k : String × String) :
    (ts.filter (fun e => decide (e.1 ≠ k))).find? (fun e => decide (e.1 = k)) =
      none := by
  induction ts with
  | nil => rfl
  | cons e es ih =>
    by_cases he : e.1 = k
    · rw [List.filter_cons_of_neg (by simp [he])]
      exact ih
    · rw [List.filter_cons_of_pos (by simp [he]),
        List.find?_cons_of_neg _ (by simp [he])]
      exact ih

theorem lookupTable_dropTableOp (db : DBState) (k : String × String) :
    lookupTable (dropTableOp db k) k = none := by
  rw [dropTableOp, lookupTable_mk, find?_filter_ne]
  rfl

theorem find?_filter_ne_append (ts : List ((String × String) × List (List Value)))
    (k : String × String) (rows : List (List Value)) :
    ((ts.filter (fun e => decide (e.1 ≠ k))) ++ [(k, rows)]).find?
      (fun e => decide (e.1 = k)) = some (k, rows) := by
  induction ts with
  | nil => simp
  | cons e es ih =>
    by_cases he : e.1 = k
    · rw [List.filter_cons_of_neg (by simp [he])]
      exact ih
    · rw [List.filter_cons_of_pos (by simp [he]), List.cons_append,
        List.find?_cons_of_neg _ (by simp [he])]
      exact ih

theorem find?_insert_map (ts : List ((String × String) × List (List Value)))
    (k : String × String) (rows newRows : List (List Value))
    (h : (ts.find? (fun e => decide (e.1 = k))).map (·.2) = some rows) :
    (ts.map (fun e => if e.1 = k then (k, newRows) else e)).find?
      (fun e => decide (e.1 = k)) = some (k, newRows) := by
  induction ts with
  | nil => simp at h
  | cons e es ih =>
    by_cases he : e.1 = k
    · rw [List.map_cons, if_pos he, List.find?_cons_of_pos _ (by simp)]
    · rw [List.find?_cons_of_neg _ (by simp [he])] at h
      rw [List.map_cons, if_neg he, List.find?_cons_of_neg _ (by simp [he])]
      exact ih h

theorem insertOp_ok (db : DBState) (k : String × String) (row : List Value)
    (rows : List (List Value)) (h : lookupTable db k = some rows) :
    insertOp db k row =
      .ok ⟨db.schemas, db.tables.map
        (fun e => if e.1 = k then (k, rows ++ [row]) else e)⟩ := by
  rw [insertOp, h]

theorem insertAll_no_fail (k : String × String) (recs : List (List Value))
    (failsAt : Nat → Bool) (hnf : ∀ n, failsAt n = false) :
    ∀ (i0 : Nat) (db : DBState) (rows : List (List Value)),
    lookupTable db k = some rows →
    ∃ db' evs, insertAll db k recs failsAt i0 = (evs, .ok db') ∧
      lookupTable db' k = some (rows ++ recs) := by
  induction recs with
  | nil =>
    intro i0 db rows h
    exact ⟨db, [], rfl, by simpa using h⟩
  | cons r rest ih =>
    intro i0 db rows h
    have hio := insertOp_ok db k r rows h
    have hlook : lookupTable ⟨db.schemas, db.tables.map
        (fun e => if e.1 = k then (k, rows ++ [r]) else e)⟩ k =
        some (rows ++ [r]) := by
      rw [lookupTable_mk, find?_insert_map db.tables k rows _ h]
      rfl
    obtain ⟨db', evs, heq, hl'⟩ := ih (i0 + 1) _ (rows ++ [r]) hlook
    refine ⟨db', .rowInserted i0 :: evs, ?_, by simpa using hl'⟩
    rw [insertAll, hnf i0]
    simp only [Bool.false_eq_true, if_false]
    rw [hio]
    simp only
    rw [heq]

theorem insertAll_fails (k : String × String) (recs : List (List Value))
    (failsAt : Nat → Bool) :
    ∀ (i0 : Nat) (db : DBState),
    (∃ n, n < recs.length ∧ failsAt (i0 + n) = true) →
    ∃ e, (insertAll db k recs failsAt i0).2 = .error e := by
  induction recs with
  | nil =>
    intro i0 db ⟨n, hn, _⟩
    simp at hn
  | cons r rest ih =>
    intro i0 db ⟨n, hn, hf⟩
    by_cases h0 : failsAt i0 = true
    · rw [insertAll, if_pos h0]
      exact ⟨"insert failed", rfl⟩
    · have hn0 : n ≠ 0 := fun he => h0 (by rw [he] at hf; simpa using hf)
      obtain ⟨n', rfl⟩ := Nat.exists_eq_succ_of_ne_zero hn0
      rw [insertAll, if_neg h0]
      cases hio : insertOp db k r with
      | error e => exact ⟨e, rfl⟩
      | ok db1 =>
        obtain ⟨e, he⟩ := ih (i0 + 1) db1
          ⟨n', by simpa using hn, by
            have harith : i0 + 1 + n' = i0 + n'.succ := by omega
            rw [harith]
            exact hf⟩
        refine ⟨e, ?_⟩
        simp only
        cases hrec : insertAll db1 k rest failsAt (i0 + 1) with
        | mk evs res =>
          rw [hrec] at he
          simpa using he

theorem insertAll_events (k : String × String) (recs : List (List Value))
    (failsAt : Nat → Bool) :
    ∀ (i0 : Nat) (db : DBState),
    ∀ e ∈ (insertAll db k recs failsAt i0).1, ∃ n, e = .rowInserted n := by
  induction recs with
  | nil => intro i0 db e he; simp [insertAll] at he
  | cons r rest ih =>
    intro i0 db e he
    rw [insertAll] at he
    by_cases h0 : failsAt i0 = true
    · rw [if_pos h0] at he
      simp at he
    · rw [if_neg h0] at he
      cases hio : insertOp db k r with
      | error er => rw [hio] at he; simp at he
      | ok db1 =>
        rw [hio] at he
        simp only at he
        cases hrec : insertAll db1 k rest failsAt (i0 + 1) with
        | mk evs res =>
          rw [hrec] at he
          simp only [List.mem_cons] at he
          rcases he with rfl | he
          · exact ⟨i0, rfl⟩
          · have := ih (i0 + 1) db1 e
            rw [hrec] at this
            exact this he

theorem createTableOp_after_prepare (db : DBState) :
    createTableOp
        (dropTableOp (createSchemaOp db SCHEMA_NAME) (SCHEMA_NAME, TABLE_NAME))
        (SCHEMA_NAME, TABLE_NAME) = .ok (preparedDB db) := by
  have hs : (SCHEMA_NAME, TABLE_NAME).1 ∈
      (dropTableOp (createSchemaOp db SCHEMA_NAME)
        (SCHEMA_NAME, TABLE_NAME)).schemas :=
    createSchemaOp_mem db SCHEMA_NAME
  rw [createTableOp, if_pos hs, lookupTable_dropTableOp]
  rfl

theorem lookupTable_preparedDB (db : DBState) :
    lookupTable (preparedDB db) (SCHEMA_NAME, TABLE_NAME) = some [] := by
  rw [preparedDB, lookupTable_mk, find?_filter_ne_append]
  rfl

/-- The whole Loader, characterized by the outcome of its insert loop over
the prepared pending state. -/
theorem loadRecords_eq (db : DBState) (recs : List (List Value))
    (failsAt : Nat → Bool) :
    loadRecords db recs failsAt =
      (match insertAll (preparedDB db) (SCHEMA_NAME, TABLE_NAME) recs failsAt 0 with
       | (evs, .error e) =>
         ⟨db, [.schemaCreated, .tableDropped, .tableCreated] ++ evs, some e⟩
       | (evs, .ok p4) =>
         ⟨p4, [.schemaCreated, .tableDropped, .tableCreated] ++ evs ++
            [.committed, .closed], none⟩) := by
  rw [loadRecords, createTableOp_after_prepare db]

/-- A no-failure Loader run succeeds and leaves the destination table holding
exactly the inserted records. -/
theorem loadRecords_no_fail (db : DBState) (recs : List (List Value))
    (failsAt : Nat → Bool) (hnf : ∀ n, failsAt n = false) :
    (loadRecords db recs failsAt).error = none ∧
    lookupTable (loadRecords db recs failsAt).db (SCHEMA_NAME, TABLE_NAME) =
      some recs := by
  obtain ⟨db2, evs, hins, hlook⟩ := insertAll_no_fail (SCHEMA_NAME, TABLE_NAME)
    recs failsAt hnf 0 (preparedDB db) [] (lookupTable_preparedDB db)
  rw [loadRecords_eq, hins]
  exact ⟨rfl, by simpa using hlook⟩

/-- C2: Loader atomicity — on any successful run the event trace ends in a
single `commit` (the only one) followed by the connection close, after all
inserts and DDL; and if any individual insert fails, the run aborts fatally
with no commit at all, leaving the committed database exactly as it was
before the run (the uncommitted drop/create and inserts are discarded
together, PostgreSQL DDL being transactional). -/
theorem load_single_final_commit :
    ∀ (db : DBState) (recs : List (List Value)) (failsAt : Nat → Bool),
    ((loadRecords db recs failsAt).error = none →
      ∃ pre, (loadRecords db recs failsAt).events = pre ++ [.committed, .closed] ∧
        Event.committed ∉ pre) ∧
    ((∃ n, n < recs.length ∧ failsAt n = true) →
      (loadRecords db recs failsAt).error.isSome = true ∧
      (loadRecords db recs failsAt).db = db ∧
      Event.committed ∉ (loadRecords db recs failsAt).events) := by
  intro db recs failsAt
  have hevs := insertAll_events (SCHEMA_NAME, TABLE_NAME) recs failsAt 0
    (preparedDB db)
  rw [loadRecords_eq]
  cases hia : insertAll (preparedDB db) (SCHEMA_NAME, TABLE_NAME) recs failsAt 0 with
  | mk evs res =>
    rw [hia] at hevs
    simp only at hevs
    cases res with
    | error e =>
      refine ⟨fun hc => absurd hc (by simp), fun _ => ⟨rfl, rfl, ?_⟩⟩
      show Event.committed ∉
        [Event.schemaCreated, Event.tableDropped, Event.tableCreated] ++ evs
      intro hmem
      rw [List.mem_append] at hmem
      rcases hmem with h | h
      · exact absurd h (by decide)
      · obtain ⟨n, hn⟩ := hevs _ h
        exact absurd hn (by simp)
    | ok p4 =>
      refine ⟨fun _ => ⟨[Event.schemaCreated, Event.tableDropped,
        Event.tableCreated] ++ evs, ?_, ?_⟩, fun hf => ?_⟩
      · show [Event.schemaCreated, Event.tableDropped, Event.tableCreated] ++
          (evs ++ [Event.committed, Event.closed]) =
          ([Event.schemaCreated, Event.tableDropped, Event.tableCreated] ++
            evs) ++ [Event.committed, Event.closed]
        exact (List.append_assoc _ _ _).symm
      · intro hmem
        rw [List.mem_append] at hmem
        rcases hmem with h | h
        · exact absurd h (by decide)
        · obtain ⟨n, hn⟩ := hevs _ h
          exact absurd hn (by simp)
      · exfalso
        obtain ⟨n, hn, hfn⟩ := hf
        obtain ⟨e, he⟩ := insertAll_fails (SCHEMA_NAME, TABLE_NAME) recs failsAt 0
          (preparedDB db) ⟨n, hn, by simpa using hfn⟩
        rw [hia] at he
        simp at he

/-- C2 witness: a failing first insert leaves the database untouched with no
commit event. -/
theorem load_single_final_commit_witness :
    (loadRecords ⟨[], []⟩ [[Value.null]] (fun n => n == 0)).error.isSome = true ∧
    (loadRecords ⟨[], []⟩ [[Value.null]] (fun n => n == 0)).db = ⟨[], []⟩ ∧
    Event.committed ∉ (loadRecords ⟨[], []⟩ [[Value.null]] (fun n => n == 0)).events :=
  (load_single_final_commit ⟨[], []⟩ [[Value.null]] (fun n => n == 0)).2
    ⟨0, by decide, by decide⟩

theorem runPipeline_ok {resp : HttpResponse} (db : DBState)
    (failsAt : Nat → Bool) {df : DF} (hstatus : resp.status = 200)
    (htr : transform resp.body = some df) :
    runPipeline resp db failsAt =
      ⟨(loadRecords db (normalizedRecords df) failsAt).db,
        .fetched 200 :: .connected ::
          (loadRecords db (normalizedRecords df) failsAt).events,
        (loadRecords db (normalizedRecords df) failsAt).error⟩ := by
  rw [runPipeline, if_neg (by simp [hstatus]), htr]

/-- C1: replace-load semantics — for every successful run (HTTP 200, the
body parses, no insert fails), after the single commit the destination table
`women_survey.women_participation_energy` holds exactly the NormalizedRecords
the Transformer produced for that run, regardless of what any table held
before the run; consequently two successive successful runs leave exactly the
second run's records. -/
theorem replace_load :
    ∀ (resp : HttpResponse) (db : DBState) (failsAt : Nat → Bool) (df : DF),
    resp.status = 200 → transform resp.body = some df →
    (∀ n, failsAt n = false) →
    (runPipeline resp db failsAt).error = none ∧
    lookupTable (runPipeline resp db failsAt).db (SCHEMA_NAME, TABLE_NAME) =
      some (normalizedRecords df) ∧
    (∀ (resp2 : HttpResponse) (failsAt2 : Nat → Bool) (df2 : DF),
      resp2.status = 200 → transform resp2.body = some df2 →
      (∀ n, failsAt2 n = false) →
      lookupTable
        (runPipeline resp2 (runPipeline resp db failsAt).db failsAt2).db
        (SCHEMA_NAME, TABLE_NAME) = some (normalizedRecords df2)) := by
  intro resp db failsAt df hstatus htr hnf
  obtain ⟨herr, htab⟩ := loadRecords_no_fail db (normalizedRecords df) failsAt hnf
  rw [runPipeline_ok db failsAt hstatus htr]
  refine ⟨herr, htab, ?_⟩
  intro resp2 failsAt2 df2 hstatus2 htr2 hnf2
  obtain ⟨_, htab2⟩ := loadRecords_no_fail
    (loadRecords db (normalizedRecords df) failsAt).db
    (normalizedRecords df2) failsAt2 hnf2
  rw [runPipeline_ok _ failsAt2 hstatus2 htr2]
  exact htab2

/-- C1 witness: a run against a database already holding junk in the
destination table replaces it with exactly the one record of that run. -/
theorem replace_load_witness :
    (runPipeline
      ⟨200, "Start;End;Gender\n2024-01-01T10:00;2024-01-01T10:30;Female"⟩
      ⟨["women_survey"],
        [((SCHEMA_NAME, TABLE_NAME), [[Value.text "OLD1"], [Value.text "OLD2"]])]⟩
      (fun _ => false)).error = none ∧
    lookupTable
      (runPipeline
        ⟨200, "Start;End;Gender\n2024-01-01T10:00;2024-01-01T10:30;Female"⟩
        ⟨["women_survey"],
          [((SCHEMA_NAME, TABLE_NAME), [[Value.text "OLD1"], [Value.text "OLD2"]])]⟩
        (fun _ => false)).db (SCHEMA_NAME, TABLE_NAME) =
      some (normalizedRecords
        ⟨["start_time", "end_time", "gender"],
          [[Value.timestamp (.civil ⟨2024, 1, 1, 10, 0, 0⟩),
            Value.timestamp (.civil ⟨2024, 1, 1, 10, 30, 0⟩),
            Value.text "Female"]]⟩) := by
  have h := replace_load
    ⟨200, "Start;End;Gender\n2024-01-01T10:00;2024-01-01T10:30;Female"⟩
    ⟨["women_survey"],
      [((SCHEMA_NAME, TABLE_NAME), [[Value.text "OLD1"], [Value.text "OLD2"]])]⟩
    (fun _ => false)
    ⟨["start_time", "end_time", "gender"],
      [[Value.timestamp (.civil ⟨2024, 1, 1, 10, 0, 0⟩),
        Value.timestamp (.civil ⟨2024, 1, 1, 10, 30, 0⟩),
        Value.text "Female"]]⟩
    rfl (by decide) (fun n => rfl)
  exact ⟨h.1, h.2.1⟩

end Pipeline

